import Mathlib

/-!
# haraqa: the file queue's consume path and the consume handler

A shallow embedding of `internal/filequeue/consume.go` (`FileQueue.Consume`,
`getConsumeDat`, `consumeResponse`) over an explicit model of the parts of the
Go runtime and standard library the code touches:

* Go strings and byte slices are lists of bytes, compared bytewise
  (lexicographically) as Go compares strings;
* `int64` and `uint64` arithmetic wraps modulo `2^64`;
* a slice expression or an index out of range, and `make([]byte, n)` with a
  negative `n` or with more bytes than the runtime can allocate, end the call
  with a run-time panic; what can be allocated is a parameter, `maxAlloc`;
* the file system is a pair of lookup functions, so every `os` failure the
  code distinguishes can be produced.

The helpers `formatName`, `sortableDirNames`, the constant `datEntryLength` and
the type `cache` are used by `consume.go` and declared elsewhere; they are
modelled from the spec and marked so.  The HTTP handler of consume and the
`headers` package, of which only the handler's test is at hand, are modelled
from the spec in the last section of definitions.
-/

namespace Haraqa

/-! ## Go values -/

/-- One byte. -/
abbrev Byte := Fin 256

/-- Go string (and byte slice): a sequence of bytes.  The order on it is the
lexicographic bytewise order, which is the order of Go's `<=` on strings, and
`List.length` is Go's `len`. -/
abbrev GoString := List Byte

/-- Bytes of an ASCII literal. -/
def ascii (s : String) : GoString := s.toList.map (fun c => Fin.ofNat c.toNat)

/-- Conversion to `int64`: the value modulo `2^64`, read as two's complement. -/
def toInt64 (x : Int) : Int := (x + 2 ^ 63) % 2 ^ 64 - 2 ^ 63

/-- Conversion to `uint64`: the value modulo `2^64`. -/
def toUint64 (x : Int) : Nat := (x % 2 ^ 64).toNat

/-- Outcome of a Go call: it returns, or it does not: the goroutine panics (a
slice bound or an index out of range, `make` with a negative or too large
length) or the runtime runs out of memory. -/
inductive Result (α : Type) where
  | panicked : Result α
  | ret (a : α) : Result α
  deriving DecidableEq

/-- Errors the consume path can see.  `osError notExist msg` is an error of
package `os` (a `*PathError`); `notExist` is what `os.IsNotExist` answers for
it. -/
inductive GoError where
  | ErrTopicDoesNotExist : GoError
  | EOF : GoError
  | osError (notExist : Bool) (msg : String) : GoError
  deriving DecidableEq

deriving instance DecidableEq for Except

/-- Go `os.IsNotExist`. -/
def IsNotExist : GoError → Bool
  | .osError notExist _ => notExist
  | _ => false

/-! ## Files and directories -/

/-- An open file: its bytes, and the failures `Stat` and `pread` may report. -/
structure File where
  content : List Byte
  statErr : Option GoError
  readErr : Option GoError
  deriving DecidableEq

/-- Result of `ReadAt`: the buffer after the call, the number of bytes read and
the error. -/
structure ReadResult where
  data : List Byte
  length : Nat
  err : Option GoError
  deriving DecidableEq

/-- Go `(*os.File).ReadAt(b, off)` on a zeroed buffer `b` of `len` bytes: a negative
offset is an error; an empty buffer reads nothing and reports no error; else
it reads until the buffer is full or the file ends, and reports `io.EOF`
exactly when the buffer was not filled. -/
def File.ReadAt (f : File) (len : Nat) (off : Int) : ReadResult :=
  if off < 0 then
    { data := List.replicate len 0, length := 0, err := some (.osError false "negative offset") }
  else if len = 0 then
    { data := [], length := 0, err := none }
  else
    match f.readErr with
    | some e => { data := List.replicate len 0, length := 0, err := some e }
    | none =>
      let got := (f.content.drop off.toNat).take len
      { data := got ++ List.replicate (len - got.length) 0
        length := got.length
        err := if got.length < len then some .EOF else none }

/-- The system as the consume path sees it.  `Join` is `filepath.Join`;
`Readdirnames p` is `os.Open(p)` followed by `Readdirnames(-1)`; `Open p` is
`os.Open(p)` on a file; `maxAlloc` is the largest number of bytes
`make([]byte, n)` can allocate: above it the runtime panics (`makeslice: len
out of range`) or runs out of memory, and the call does not return. -/
structure OS where
  Join : List GoString → GoString
  Readdirnames : GoString → Except GoError (List GoString)
  Open : GoString → Except GoError File
  maxAlloc : Nat

/-! ## Segment names -/

/-- Modelled from the spec: the constant `datEntryLength` is not declared in the
sources at hand; the spec fixes an index entry at 32 bytes. -/
def datEntryLength : Int := 32

/-- Decimal digits of `n`, most significant first, in exactly `width` bytes. -/
def fixedDigits : Nat → Nat → GoString
  | 0, _ => []
  | width + 1, n => Fin.ofNat (48 + n / 10 ^ width % 10) :: fixedDigits width (n % 10 ^ width)

/-- Modelled from the spec: `formatName` is not in the sources at hand.  The
spec makes a segment's name the zero-padded fixed-width decimal string of its
starting offset, the width being a configured constant; the width is a
parameter here.  The spec names offsets `0 ≤ n < 10^width` only: outside that
range this definition formats a negative `id` as `0` and keeps the low-order
digits of a larger one. -/
def formatName (width : Nat) (id : Int) : GoString := fixedDigits width id.toNat

/-- Modelled from the spec: `sortableDirNames` is not in the sources at hand.
The spec has the listing sorted descending; `sort.Sort` yields the descending
arrangement of the names. -/
def sortDirNames (names : List GoString) : List GoString :=
  List.insertionSort (fun a b => b ≤ a) names

/-- The test of both loops of `getConsumeDat`:
`len(names[i]) == len(exact) && names[i] <= exact`. -/
def fits (exact name : GoString) : Bool :=
  name.length == exact.length && decide (name ≤ exact)

/-- The loop `for i := range names` of `getConsumeDat`: the first name that fits. -/
def firstFit (exact : GoString) (names : List GoString) : Option GoString :=
  names.find? (fits exact)

/-- Modelled from the spec: the type `cache` is not declared in the sources at
hand; it is a map from a topic path to a listing, with `Load` and `Store`. -/
abbrev Cache := List (GoString × List GoString)

/-- Cache lookup `Load`. -/
def Cache.Load (c : Cache) (path : GoString) : Option (List GoString) := c.lookup path

/-- Cache update `Store`. -/
def Cache.Store (c : Cache) (path : GoString) (names : List GoString) : Cache :=
  (path, names) :: c

/-- The first name of the cached listing that fits, when the cache is enabled
and holds a listing for `path`. -/
def cacheHit (consumeCache : Option Cache) (path exact : GoString) : Option GoString :=
  match consumeCache with
  | none => none
  | some c =>
    match c.Load path with
    | none => none
    | some names => firstFit exact names

/-- Go `getConsumeDat`: the name of the index file to read for `id`, and the
cache afterwards. -/
def getConsumeDat (os : OS) (width : Nat) (consumeCache : Option Cache) (path : GoString)
    (id : Int) : Except GoError GoString × Option Cache :=
  let exact := formatName width id
  match cacheHit consumeCache path exact with
  | some name => (.ok name, consumeCache)
  | none =>
    match os.Readdirnames path with
    | .error err => (.error err, consumeCache)
    | .ok names =>
      let names := sortDirNames names
      let cache := consumeCache.map (fun c => c.Store path names)
      match firstFit exact names with
      | some name => (.ok name, cache)
      | none => (.ok (formatName width 0), cache)

/-! ## Decoding the index and answering -/

/-- Go slice expression `data[n:]`: it panics (here `none`) when `n` is out of range. -/
def sliceFrom (data : List Byte) (n : Nat) : Option (List Byte) :=
  if n ≤ data.length then some (data.drop n) else none

/-- The number the first eight bytes of `b` spell, least significant first. -/
def le64 (b : List Byte) : Nat :=
  (b.take 8).foldr (fun x acc => x.val + 256 * acc) 0

/-- Go `binary.LittleEndian.Uint64(b)`: the first eight bytes of `b`, least
significant first; it panics (here `none`) when `b` has fewer than eight. -/
def Uint64 (b : List Byte) : Option Nat :=
  if b.length < 8 then none else some (le64 b)

/-- The expression `binary.LittleEndian.Uint64(data[n:])`. -/
def uint64At (data : List Byte) (n : Nat) : Option Nat :=
  (sliceFrom data n).bind Uint64

/-- What `consumeResponse` writes to the response header.  The two times are
the `int64` nanoseconds handed to `time.Unix(0, ·)`; `sizes` is the slice
handed to `headers.SetSizes`. -/
structure ConsumeHeaders where
  startTime : Int
  endTime : Int
  fileName : GoString
  contentType : String
  sizes : List Int
  range : String
  deriving DecidableEq

/-- Outcome of a consume call: what it returns, `(count, err)`, unless it
panics, and the headers it wrote, if it wrote any. -/
structure ConsumeOut where
  ret : Result (Int × Option GoError)
  headers : Option ConsumeHeaders
  deriving DecidableEq

/-- The variables the loop of `consumeResponse` updates. -/
structure LoopState where
  sizes : List Int
  endAt : Nat
  endTime : Int
  deriving DecidableEq

/-- One pass of the loop `for i := range sizes` of `consumeResponse`; the
offsets `i*datEntryLength+24` and `i*datEntryLength+8` are written with the
entry length 32. -/
def loopBody (data : List Byte) (i : Nat) (st : LoopState) : Option LoopState :=
  match uint64At data (i * 32 + 24) with
  | none => none
  | some size =>
    let sizes := st.sizes.set i (toInt64 size)
    let endAt := (st.endAt + size) % 2 ^ 64
    if i = sizes.length - 1 then
      match uint64At data (i * 32 + 8) with
      | none => none
      | some t => some { sizes := sizes, endAt := endAt, endTime := toInt64 t }
    else some { sizes := sizes, endAt := endAt, endTime := st.endTime }

/-- The loop `for i := range sizes`, with `n` passes left, the next at index `i`. -/
def loop (data : List Byte) : Nat → Nat → LoopState → Option LoopState
  | 0, _, st => some st
  | n + 1, i, st => (loopBody data i st).bind (loop data n (i + 1))

/-- Go `FileQueue.consumeResponse`.  `make([]int64, limit)` panics on a negative
limit, `data[8:]`, `data[16:]` and the reads in the loop on a buffer that is
too short.  `Consume` passes a limit of at most `len(data)/32`, so the sizes
take a quarter of the bytes of a buffer that has been allocated, and this
`make` is not bounded by `maxAlloc`.  `http.ServeContent` writes the body and
does not change what is returned; it is left out. -/
def consumeResponse (os : OS) (data : List Byte) (limit : Int) (filename : GoString) :
    ConsumeOut :=
  if limit < 0 then ⟨.panicked, none⟩
  else
    match uint64At data 8, uint64At data 16 with
    | some startTime, some startAt =>
      match loop data limit.toNat 0
          { sizes := List.replicate limit.toNat 0, endAt := startAt, endTime := toInt64 startTime } with
      | none => ⟨.panicked, none⟩
      | some st =>
        let endAt := (st.endAt + (2 ^ 64 - 1)) % 2 ^ 64
        match os.Open filename with
        | .error err =>
          if IsNotExist err then ⟨.ret (0, some .ErrTopicDoesNotExist), none⟩
          else ⟨.ret (0, some err), none⟩
        | .ok _ =>
          ⟨.ret (st.sizes.length, none),
            some { startTime := toInt64 startTime
                   endTime := st.endTime
                   fileName := filename
                   contentType := "application/octet-stream"
                   sizes := st.sizes
                   range := "bytes=" ++ toString startAt ++ "-" ++ toString endAt }⟩
    | _, _ => ⟨.panicked, none⟩

/-- The queue: the root directories and the cache of listings (`nil` when the
cache is off). -/
structure FileQueue where
  rootDirNames : List GoString
  consumeCache : Option Cache

/-- The second half of `FileQueue.Consume`, from `dat.Stat()` on: `dat` is the
open index file and `path` its path.  The products `id*datEntryLength` and
`limit*datEntryLength` are `int64` products; `make([]byte, n)` panics on a
negative `n` and does not return for an `n` above `maxAlloc`. -/
def readIndex (os : OS) (dat : File) (path : GoString) (id limit : Int) : ConsumeOut :=
  match dat.statErr with
  | some err => ⟨.ret (0, some err), none⟩
  | none =>
    let size : Int := dat.content.length
    let off := toInt64 (id * datEntryLength)
    if size < off then ⟨.ret (0, none), none⟩
    else
      let limit := if limit < 0 then (toInt64 (size - off)).tdiv datEntryLength else limit
      let len := toInt64 (limit * datEntryLength)
      if len < 0 ∨ (os.maxAlloc : Int) < len then ⟨.panicked, none⟩
      else
        let r := dat.ReadAt len.toNat off
        if r.err.isSome && r.length == 0 then ⟨.ret (0, r.err), none⟩
        else
          let limit := (r.length : Int).tdiv datEntryLength
          consumeResponse os r.data limit (path ++ ascii ".log")

/-- Go `FileQueue.Consume`, followed by the cache as the call leaves it.
`q.rootDirNames[len(q.rootDirNames)-1]` panics on an empty slice. -/
def Consume (os : OS) (width : Nat) (q : FileQueue) (topic : GoString) (id limit : Int) :
    ConsumeOut × Option Cache :=
  match q.rootDirNames.getLast? with
  | none => (⟨.panicked, none⟩, q.consumeCache)
  | some root =>
    match getConsumeDat os width q.consumeCache (os.Join [root, topic]) id with
    | (.error err, cache) =>
      if IsNotExist err then (⟨.ret (0, some .ErrTopicDoesNotExist), none⟩, cache)
      else (⟨.ret (0, some err), none⟩, cache)
    | (.ok datName, cache) =>
      let path := os.Join [root, topic, datName]
      match os.Open path with
      | .error err =>
        if IsNotExist err then (⟨.ret (0, some .ErrTopicDoesNotExist), none⟩, cache)
        else (⟨.ret (0, some err), none⟩, cache)
      | .ok dat => (readIndex os dat path id limit, cache)

/-! ## Fields of an index entry -/

/-- The append time of entry `i` of an index buffer: the little-endian uint64
at bytes 8..15 of the entry. -/
def timeField (data : List Byte) (i : Nat) : Nat := le64 (data.drop (i * 32 + 8))

/-- The log position of entry `i` of an index buffer: the little-endian uint64
at bytes 16..23 of the entry. -/
def positionField (data : List Byte) (i : Nat) : Nat := le64 (data.drop (i * 32 + 16))

/-- The message size of entry `i` of an index buffer: the little-endian uint64
at bytes 24..31 of the entry. -/
def sizeField (data : List Byte) (i : Nat) : Nat := le64 (data.drop (i * 32 + 24))

/-- The sum of the sizes of the first `k` entries of an index buffer. -/
def sizesSum (data : List Byte) (k : Nat) : Nat := ((List.range k).map (sizeField data)).sum

/-! ## Concrete topics

Three small topics under the root `r`, with four-digit segment names, used to
evaluate the code. -/

/-- Eight bytes spelling `n`, least significant first. -/
def putUint64 (n : Nat) : List Byte := (List.range 8).map (fun i => Fin.ofNat (n / 256 ^ i))

/-- One index entry: offset marker, append time, position in the log, size. -/
def indexEntry (id time pos size : Nat) : List Byte :=
  putUint64 id ++ putUint64 time ++ putUint64 pos ++ putUint64 size

/-- Path elements joined by a slash. -/
def joinSlash (elems : List GoString) : GoString := (elems.intersperse (ascii "/")).flatten

/-- The error of opening a path that is not there. -/
def errNoSuchFile : GoError := .osError true "no such file or directory"

/-- Index of topic `t`: one segment starting at 0 with the three messages
`a`, `bb`, `ccc`. -/
def indexT : List Byte := indexEntry 0 7 0 1 ++ indexEntry 1 7 1 2 ++ indexEntry 2 7 3 3

/-- Index of the second segment of topic `u`, starting at offset 1: the
messages 1, 2 and 3, of sizes 2, 3 and 4. -/
def indexU1 : List Byte := indexEntry 1 8 0 2 ++ indexEntry 2 8 2 3 ++ indexEntry 3 8 5 4

/-- A root `r` holding topic `t` (one segment), topic `u` (segments starting
at 0 and at 1) and topic `v` (one segment of one entry, its log file missing),
on a machine where `make` can allocate up to `2^30` bytes. -/
def diskOS : OS where
  Join := joinSlash
  Readdirnames p :=
    if p = ascii "r/t" then .ok [ascii "0000.log", ascii "0000"]
    else if p = ascii "r/u" then .ok [ascii "0000", ascii "0000.log", ascii "0001", ascii "0001.log"]
    else if p = ascii "r/v" then .ok [ascii "0000"]
    else .error errNoSuchFile
  Open p :=
    if p = ascii "r/t/0000" then .ok ⟨indexT, none, none⟩
    else if p = ascii "r/t/0000.log" then .ok ⟨ascii "abbccc", none, none⟩
    else if p = ascii "r/u/0000" then .ok ⟨indexEntry 0 7 0 1, none, none⟩
    else if p = ascii "r/u/0000.log" then .ok ⟨ascii "a", none, none⟩
    else if p = ascii "r/u/0001" then .ok ⟨indexU1, none, none⟩
    else if p = ascii "r/u/0001.log" then .ok ⟨ascii "bbcccdddd", none, none⟩
    else if p = ascii "r/v/0000" then .ok ⟨indexEntry 0 9 0 1, none, none⟩
    else .error errNoSuchFile
  maxAlloc := 2 ^ 30

/-- A queue rooted at `r`, its cache off. -/
def diskQueue : FileQueue := ⟨[ascii "r"], none⟩

/-! ## The consume handler

The handler and the `headers` package are not among the sources at hand (only
the handler's test is); they are modelled from the spec. -/

/-- Modelled from the spec: the typed errors of the error taxonomy (section 7),
which the `headers` package, not in the sources at hand, declares. -/
inductive ErrKind where
  | InvalidTopic
  | InvalidMessageID
  | InvalidMessageLimit
  | InvalidHeaderSizes
  | InvalidBodyMissing
  | InvalidBodyJSON
  | TopicAlreadyExists
  | TopicDoesNotExist
  | NoContent
  deriving DecidableEq

/-- Modelled from the spec: the stable string the `X-Error` header carries for a
typed error (the spec's scenarios show `NoContent` and `TopicAlreadyExists`);
the texts the `headers` package gives its errors are not in the sources at
hand. -/
def ErrKind.code : ErrKind → String
  | .InvalidTopic => "InvalidTopic"
  | .InvalidMessageID => "InvalidMessageID"
  | .InvalidMessageLimit => "InvalidMessageLimit"
  | .InvalidHeaderSizes => "InvalidHeaderSizes"
  | .InvalidBodyMissing => "InvalidBodyMissing"
  | .InvalidBodyJSON => "InvalidBodyJSON"
  | .TopicAlreadyExists => "TopicAlreadyExists"
  | .TopicDoesNotExist => "TopicDoesNotExist"
  | .NoContent => "NoContent"

/-- Modelled from the spec: the HTTP status the taxonomy of section 7 gives a
typed error; the mapping in the `headers` package is not in the sources at
hand. -/
def ErrKind.status : ErrKind → Nat
  | .InvalidTopic => 400
  | .InvalidMessageID => 400
  | .InvalidMessageLimit => 400
  | .InvalidHeaderSizes => 400
  | .InvalidBodyMissing => 400
  | .InvalidBodyJSON => 400
  | .TopicAlreadyExists => 412
  | .TopicDoesNotExist => 412
  | .NoContent => 204

/-- The typed errors, in the taxonomy's order. -/
def ErrKind.all : List ErrKind :=
  [.InvalidTopic, .InvalidMessageID, .InvalidMessageLimit, .InvalidHeaderSizes,
   .InvalidBodyMissing, .InvalidBodyJSON, .TopicAlreadyExists, .TopicDoesNotExist, .NoContent]

/-- An error value at the handler: a typed error of the taxonomy, or any other
error, known by its text alone (the taxonomy's `Unknown`). -/
inductive HandlerError where
  | typed (kind : ErrKind)
  | unknown (text : String)
  deriving DecidableEq

/-- The error text, Go `err.Error()`. -/
def HandlerError.Error : HandlerError → String
  | .typed kind => kind.code
  | .unknown text => text

/-- The status line and the `X-Error` header of a response, as far as the
handler sets them; `status = none` leaves the status to what the queue wrote
while serving the body. -/
structure Response where
  status : Option Nat
  xError : Option String
  deriving DecidableEq

/-- Modelled from the spec: `headers.SetError` is not in the sources at hand.
It conveys an error in the `X-Error` header and maps it to its status, 500 for
an error outside the taxonomy. -/
def SetError (err : HandlerError) : Response :=
  match err with
  | .typed kind => ⟨some kind.status, some kind.code⟩
  | .unknown text => ⟨some 500, some text⟩

/-- Modelled from the spec: `headers.ReadErrors` is not in the sources at hand.
It decodes `X-Error` into the matching typed error, or into an error carrying
the raw text. -/
def ReadErrors (xError : Option String) : Option HandlerError :=
  match xError with
  | none => none
  | some text =>
    match ErrKind.all.find? (fun kind => kind.code == text) with
    | some kind => some (.typed kind)
    | none => some (.unknown text)

/-- The value of a string of decimal digits; `none` when a byte is not a digit. -/
def parseDigits : List Byte → Nat → Option Nat
  | [], acc => some acc
  | c :: rest, acc =>
    if 48 ≤ c.val ∧ c.val ≤ 57 then parseDigits rest (acc * 10 + (c.val - 48)) else none

/-- Modelled from the spec: the handler's parsing of `id` and `limit` is not in
the sources at hand.  The spec asks for an integer; it is read as Go
`strconv.ParseInt(s, 10, 64)` reads one: an optional sign, then at least one
decimal digit, the value within `int64`. -/
def parseInt (s : GoString) : Option Int :=
  match s with
  | [] => none
  | c :: rest =>
    if c.val = 45 then
      match rest, parseDigits rest 0 with
      | _ :: _, some n => if n ≤ 2 ^ 63 then some (-(n : Int)) else none
      | _, _ => none
    else if c.val = 43 then
      match rest, parseDigits rest 0 with
      | _ :: _, some n => if n < 2 ^ 63 then some (n : Int) else none
      | _, _ => none
    else
      match parseDigits s 0 with
      | some n => if n < 2 ^ 63 then some (n : Int) else none
      | none => none

/-- A consume request as the handler reads it: the topic of the path, the query
parameters `id` and `limit` (`none` when absent) and the consumer group. -/
structure ConsumeRequest where
  topic : GoString
  id : Option GoString
  limit : Option GoString
  group : GoString

/-- One call of the queue's `Consume(group, topic, id, limit, w)`. -/
structure ConsumeCall where
  group : GoString
  topic : GoString
  id : Int
  limit : Int
  deriving DecidableEq

/-- The queue behind the handler (in the test, a mock): what `Consume` returns,
`(count, err)`, for a call. -/
abbrev Queue := ConsumeCall → Int × Option HandlerError

/-- What the handler did: its response and the calls it made to the queue. -/
structure HandlerOut where
  resp : Response
  calls : List ConsumeCall
  deriving DecidableEq

/-- Modelled from the spec: the part of `Server.HandleConsume`, which is not in
the sources at hand, that answers the result `(count, err)` of the queue's
`Consume`: an error is conveyed with `SetError`, a count of 0 as
`ErrNoContent`, and a success leaves the response to the queue. -/
def consumeReply (result : Int × Option HandlerError) : Response :=
  match result.2 with
  | some err => SetError err
  | none => if result.1 = 0 then SetError (.typed .NoContent) else ⟨none, none⟩

/-- Modelled from the spec: `Server.HandleConsume` is not in the sources at hand
(its test is).  By sections 4.2 and 7 the topic is taken from the path, empty
meaning `ErrInvalidTopic`; `id` is required and an integer; `limit` is
optional, defaults to -1, and 0 is normalised to -1; then the queue is called
and its result answered. -/
def HandleConsume (q : Queue) (r : ConsumeRequest) : HandlerOut :=
  if r.topic = [] then ⟨SetError (.typed .InvalidTopic), []⟩
  else
    match r.id.bind parseInt with
    | none => ⟨SetError (.typed .InvalidMessageID), []⟩
    | some id =>
      match (match r.limit with
        | none => some (-1)
        | some s => parseInt s) with
      | none => ⟨SetError (.typed .InvalidMessageLimit), []⟩
      | some limit =>
        let call : ConsumeCall :=
          { group := r.group, topic := r.topic, id := id, limit := if limit = 0 then -1 else limit }
        ⟨consumeReply (q call), [call]⟩

/-! ## The client (`client.go`)

The client talks to the broker over gRPC and over a data connection.  What
the network and the packages `protocol` (not among the sources at hand) and
`github.com/pkg/errors` do is given to each function as an argument. -/

/-- Errors at the client.  `ErrTopicExists` is the value of package `protocol`;
`new msg` is `errors.New(msg)`; `external msg` is an error a library call
returned; `wrap cause msg` is what `errors.Wrap` and `errors.Wrapf` build
around a non-nil `cause`. -/
inductive ClientError where
  | ErrTopicExists : ClientError
  | new (msg : String) : ClientError
  | external (msg : String) : ClientError
  | wrap (cause : ClientError) (msg : String) : ClientError
  deriving DecidableEq

/-- Go `errors.Cause` of `github.com/pkg/errors`: the innermost wrapped error. -/
def ClientError.Cause : ClientError → ClientError
  | .wrap cause _ => cause.Cause
  | .ErrTopicExists => .ErrTopicExists
  | .new msg => .new msg
  | .external msg => .external msg

/-- Go `errors.Wrap(err, msg)` and `errors.Wrapf(err, format, args...)` of
`github.com/pkg/errors`, `msg` being the formatted message: as the package
documents, a nil `err` gives nil. -/
def Wrap (err : Option ClientError) (msg : String) : Option ClientError :=
  match err with
  | none => none
  | some cause => some (.wrap cause msg)

/-- A byte slice with its backing array: `arr` holds the bytes from the start of
the slice up to its capacity, `len` is the length of the slice. -/
structure Buf where
  arr : List Byte
  len : Nat
  deriving DecidableEq

/-- The bytes of a slice, `b[:len(b)]`. -/
def Buf.bytes (b : Buf) : List Byte := b.arr.take b.len

/-- What `client.go` uses of packages it does not declare, taken as parameters:
the text of `protocol.ErrTopicExists`, the quoting `%q` of `fmt`, and
`protocol.ExtendBuffer(&buf, n)`, given as the slice it leaves in `buf`. -/
structure Lib where
  ErrTopicExistsText : String
  Quote : List Byte → String
  ExtendBuffer : Buf → Int → Buf

/-- The error text, Go `err.Error()`, of an error built from `errors.New` and
the wrappers (`msg: cause`). -/
def ClientError.Error (lib : Lib) : ClientError → String
  | .wrap cause msg => msg ++ ": " ++ cause.Error lib
  | .ErrTopicExists => lib.ErrTopicExistsText
  | .new msg => msg
  | .external msg => msg

/-- The `Meta` message of a broker response. -/
structure Meta where
  OK : Bool
  ErrorMsg : String
  deriving DecidableEq

/-- The generated getter `GetOK`, which answers false on a nil message. -/
def GetOK : Option Meta → Bool
  | none => false
  | some m => m.OK

/-- The generated getter `GetErrorMsg`, which answers the empty string on a nil
message. -/
def GetErrorMsg : Option Meta → String
  | none => ""
  | some m => m.ErrorMsg

/-- Go `Client.CreateTopic`; `rpc` is what `c.client.CreateTopic` returned: an
error, or a response with its `Meta`. -/
def CreateTopic (lib : Lib) (rpc : Except ClientError (Option Meta)) (topic : List Byte) :
    Option ClientError :=
  match rpc with
  | .error err => Wrap (some err) "could not produce"
  | .ok meta =>
    if !GetOK meta then
      let err :=
        if GetErrorMsg meta = lib.ErrTopicExistsText then ClientError.ErrTopicExists
        else ClientError.new (GetErrorMsg meta)
      Wrap (some err) ("broker error creating topic " ++ lib.Quote topic)
    else none

/-- The type byte of a response prefix, `protocol.Type`. -/
inductive PrefixType where
  | TypeProduce : PrefixType
  | TypeConsume : PrefixType
  | other (code : Nat) : PrefixType
  deriving DecidableEq

/-- A data connection, known by a number. -/
abbrev Conn := Nat

/-- The fields of `Client` the data path uses. -/
structure Client where
  dataConn : Option Conn
  dataBuf : Buf
  deriving DecidableEq

/-- What the data connection does during one `produce`: the results of
`req.Write`, of `c.dataConn.Write` and of `protocol.ReadPrefix`. -/
structure ProduceIO where
  reqWrite : Option ClientError
  bodyWrite : Option ClientError
  readPrefix : PrefixType × Nat × Option ClientError

/-- Outcome of `produce`: the error it returns unless it panics, the client
afterwards, the `MsgSizes` of the request and the body handed to
`c.dataConn.Write`, when the call got that far. -/
structure ProduceOut where
  ret : Result (Option ClientError)
  client : Client
  sentSizes : Option (List Int)
  sentBody : Option (List Byte)
  deriving DecidableEq

/-- The loop `for i := range msgs { n += copy(c.dataBuf[n:], msgs[i]) }` of
`produce`, on the bytes of `c.dataBuf`: `copy` copies as many bytes as fit. -/
def copyMsgs : List (List Byte) → List Byte → Nat → List Byte × Nat
  | [], buf, n => (buf, n)
  | m :: rest, buf, n =>
    let k := min (buf.length - n) m.length
    copyMsgs rest (buf.take n ++ m.take k ++ buf.drop (n + k)) (n + k)

/-- The loop of `produce` that fills `msgSizes`: `int64(len(msgs[i]))`. -/
def msgSizesOf (msgs : List (List Byte)) : List Int := msgs.map (fun m => (m.length : Int))

/-- Go `sum`, and the accumulation of `totalSize` in `produce`: an `int64` sum. -/
def sum (sizes : List Int) : Int := sizes.foldl (fun out s => toInt64 (out + s)) 0

/-- Go `Client.produce`.  A method call on a nil `c.dataConn` panics. -/
def produce (lib : Lib) (io : ProduceIO) (c : Client) (msgs : List (List Byte)) : ProduceOut :=
  let msgSizes := msgSizesOf msgs
  let totalSize := sum msgSizes
  let dataBuf := lib.ExtendBuffer c.dataBuf totalSize
  match c.dataConn with
  | none => ⟨.panicked, { dataConn := none, dataBuf := dataBuf }, none, none⟩
  | some conn =>
    match io.reqWrite with
    | some err =>
      ⟨.ret (Wrap (some err) "could not write produce header"),
        { dataConn := none, dataBuf := dataBuf }, some msgSizes, none⟩
    | none =>
      let copied := copyMsgs msgs dataBuf.bytes 0
      let filled : Buf := { arr := copied.1 ++ dataBuf.arr.drop dataBuf.len, len := dataBuf.len }
      let body := copied.1.take copied.2
      match io.bodyWrite with
      | some err =>
        ⟨.ret (Wrap (some err) "unable to write data connection"),
          { dataConn := none, dataBuf := filled }, some msgSizes, some body⟩
      | none =>
        match io.readPrefix with
        | (_, _, some err) =>
          ⟨.ret (Wrap (some err) "could not read from data connection"),
            { dataConn := none, dataBuf := filled }, some msgSizes, some body⟩
        | (p, _, none) =>
          if p ≠ .TypeProduce then
            ⟨.ret (Wrap none "invalid response read from data connection"),
              { dataConn := none, dataBuf := filled }, some msgSizes, some body⟩
          else ⟨.ret none, { dataConn := some conn, dataBuf := filled }, some msgSizes, some body⟩

/-- A message for `ProduceLoop`; `Err` is the channel for the result, known by
a number, or nil. -/
structure ProduceMsg where
  Msg : List Byte
  Err : Option Nat
  deriving DecidableEq

/-- One iteration of `for msg := range ch`: the message received, and the value
of `len(ch)` when the loop tests it in that iteration. -/
structure Received where
  msg : ProduceMsg
  lenCh : Nat
  deriving DecidableEq

/-- What `ProduceLoop` did: the error it returned, the batches it handed to
`produce` in order, and the results it sent on `Err` channels in order. -/
structure ProduceLoopOut where
  ret : Option ClientError
  batches : List (List (List Byte))
  results : List (Nat × Option ClientError)
  deriving DecidableEq

/-- The loop `for msg := range ch` of `ProduceLoop` and the batch after it, on
the messages the channel delivers until it is closed.  `msgs` and `errs` are
the two buffers; `produce k batch` is what the call number `k` of `c.produce`
returns for `batch`. -/
def produceLoopFrom (capCh : Nat) (produce : Nat → List (List Byte) → Option ClientError) :
    List Received → List (List Byte) → List Nat → Nat → ProduceLoopOut
  | [], msgs, errs, k =>
    if msgs.length > 0 then
      ⟨produce k msgs, [msgs], errs.map (fun ch => (ch, produce k msgs))⟩
    else ⟨none, [], []⟩
  | r :: rest, msgs, errs, k =>
    let msgs := msgs ++ [r.msg.Msg]
    let errs :=
      match r.msg.Err with
      | some ch => errs ++ [ch]
      | none => errs
    if msgs.length = capCh ∨ (r.lenCh = 0 ∧ msgs.length > 0) then
      match produce k msgs with
      | some err => ⟨some err, [msgs], errs.map (fun ch => (ch, some err))⟩
      | none =>
        let out := produceLoopFrom capCh produce rest [] [] (k + 1)
        ⟨out.ret, msgs :: out.batches, errs.map (fun ch => (ch, none)) ++ out.results⟩
    else produceLoopFrom capCh produce rest msgs errs k

/-- Go `Client.ProduceLoop` on a channel of capacity `capCh` that delivers
`received` and is then closed; `connect` is what `c.dataConnect()` returns. -/
def ProduceLoop (capCh : Nat) (connect : Option ClientError)
    (produce : Nat → List (List Byte) → Option ClientError) (received : List Received) :
    ProduceLoopOut :=
  if capCh = 0 then
    ⟨some (.new "invalid channel capacity, channels must have a capacity of at least 1"), [], []⟩
  else
    match connect with
    | some err => ⟨some err, [], []⟩
    | none => produceLoopFrom capCh produce received [] [] 0

/-- Go slice expression `b[lo : hi : hi]` with `int64` bounds on a backing array
of `arr.length` bytes: it panics (here `none`) unless `0 <= lo <= hi <= cap(b)`. -/
def slice3 (arr : List Byte) (lo hi : Int) : Option (List Byte) :=
  if 0 ≤ lo ∧ lo ≤ hi ∧ hi ≤ arr.length then some ((arr.drop lo.toNat).take (hi - lo).toNat)
  else none

/-- The last loop of `Client.Consume`, which cuts the body into messages:
`buf.msgBuf[i] = buf.bodyBuf[n : n+size : n+size]` and `n += size`, `n` an
`int64`. -/
def sliceMsgs (arr : List Byte) : List Int → Int → Option (List (List Byte))
  | [], _ => some []
  | size :: rest, n =>
    match slice3 arr n (toInt64 (n + size)) with
    | none => none
    | some m =>
      match sliceMsgs arr rest (toInt64 (n + size)) with
      | none => none
      | some ms => some (m :: ms)

/-- What the data connection does during one `Consume`: the result of dialling
(used when `c.dataConn` is nil), of `req.Write`, of `protocol.ReadPrefix`, of
reading the header, of `resp.Read` (the `MsgSizes` it decodes), and the bytes
the connection delivers after the header. -/
structure ConsumeIO where
  dial : Except ClientError Conn
  reqWrite : Option ClientError
  readPrefix : PrefixType × Nat × Option ClientError
  readHeader : Option ClientError
  respRead : Except ClientError (List Int)
  stream : List Byte

/-- Go `io.ReadFull(conn, b)` on the bytes `stream` the connection delivers: it
fills `b`, or fails when the connection ends first. -/
def readFull (stream : List Byte) (b : Buf) : Except ClientError Buf :=
  if b.len ≤ stream.length then .ok { arr := stream.take b.len ++ b.arr.drop b.len, len := b.len }
  else .error (.external "unexpected EOF")

/-- Outcome of the client's `Consume`: `(msgs, err)` unless it panics, and
`c.dataConn` afterwards. -/
structure ClientConsumeOut where
  ret : Result (Option (List (List Byte)) × Option ClientError)
  dataConn : Option Conn
  deriving DecidableEq

/-- Go `Client.Consume`, with `bodyBuf` the body buffer of `buf` (empty when
`buf` is nil).  The header buffer, `buf.msgSizes` and the resizing of
`buf.msgBuf` to `len(resp.MsgSizes)` entries do not change what is returned
and are left out. -/
def clientConsume (lib : Lib) (io : ConsumeIO) (dataConn : Option Conn) (bodyBuf : Buf) :
    ClientConsumeOut :=
  let connected : Except ClientError Conn :=
    match dataConn with
    | some conn => .ok conn
    | none => io.dial
  match connected with
  | .error err => ⟨.ret (none, Wrap (some err) "could not connect to data port"), none⟩
  | .ok conn =>
    match io.reqWrite with
    | some err => ⟨.ret (none, Wrap (some err) "could not write to data connection"), none⟩
    | none =>
      match io.readPrefix with
      | (_, _, some err) =>
        ⟨.ret (none, Wrap (some err) "could not read from data connection"), none⟩
      | (p, _, none) =>
        if p ≠ .TypeConsume then
          ⟨.ret (none, Wrap none "invalid response type read from data connection"), none⟩
        else
          match io.readHeader with
          | some err =>
            ⟨.ret (none, Wrap (some err) "could not read error from data connection"), none⟩
          | none =>
            match io.respRead with
            | .error err =>
              ⟨.ret (none, Wrap (some err) "invalid response read from data connection"), none⟩
            | .ok msgSizes =>
              let totalSize := sum msgSizes
              match readFull io.stream (lib.ExtendBuffer bodyBuf totalSize) with
              | .error err =>
                ⟨.ret (none, Wrap (some err) "unable to read batch messages from connection"),
                  none⟩
              | .ok body =>
                match sliceMsgs body.arr msgSizes 0 with
                | none => ⟨.panicked, some conn⟩
                | some msgs => ⟨.ret (some msgs, none), some conn⟩

/-- An `ExtendBuffer` for the concrete evaluations below: it grows the backing
array with zeros up to `n` bytes and sets the length to `n`. -/
def extendTo (b : Buf) (n : Int) : Buf :=
  { arr := b.arr ++ List.replicate (n.toNat - b.arr.length) 0, len := n.toNat }

/-- The library parameters used in the concrete evaluations below. -/
def demoLib : Lib where
  ErrTopicExistsText := "topic already exists"
  Quote topic := "\"" ++ String.mk (topic.map (fun b => Char.ofNat b.val)) ++ "\""
  ExtendBuffer := extendTo

/-! ## Theorems -/

/-- C1, evaluated on the code: topic `t` holds N = 3 messages.  At id = 3 = N
the guard `stat.Size() < id*datEntryLength` does not fire: with a negative
limit (and with limit 0) the call panics on `data[8:]` of an empty buffer, and
with limit 1 it returns the error `io.EOF`; only from id = 4 on is the answer
count 0 with a nil error. -/
theorem Consume_at_max_offset :
    (Consume diskOS 4 diskQueue (ascii "t") 3 (-1)).1.ret = .panicked
    ∧ (Consume diskOS 4 diskQueue (ascii "t") 3 0).1.ret = .panicked
    ∧ (Consume diskOS 4 diskQueue (ascii "t") 3 1).1.ret = .ret (0, some .EOF)
    ∧ (Consume diskOS 4 diskQueue (ascii "t") 4 (-1)).1.ret = .ret (0, none)
    ∧ (Consume diskOS 4 diskQueue (ascii "t") 4 1).1.ret = .ret (0, none) := by
  refine ⟨?_, ?_, ?_, ?_, ?_⟩ <;> decide

/-- C2, evaluated on the code: in topic `u` the segment `0001` starts at offset
s = 1 and holds messages 1, 2, 3.  For id = 2 the code selects that segment and
reads at byte id*32 = 64, the entry of message 3 (size 4, log position 5),
where the entry of message 2 is at byte (id - s)*32 = 32 (size 3, position 2);
for id = 3, a message the segment holds, it reads at the end of the file and
returns `io.EOF`. -/
theorem Consume_ignores_starting_offset :
    (getConsumeDat diskOS 4 none (ascii "r/u") 2).1 = .ok (ascii "0001")
    ∧ (Consume diskOS 4 diskQueue (ascii "u") 2 1).1.headers.map (fun h => (h.sizes, h.range))
        = some ([4], "bytes=5-8")
    ∧ uint64At indexU1 ((2 - 1) * 32 + 24) = some 3
    ∧ uint64At indexU1 ((2 - 1) * 32 + 16) = some 2
    ∧ (Consume diskOS 4 diskQueue (ascii "u") 3 1).1.ret = .ret (0, some .EOF) := by
  refine ⟨?_, ?_, ?_, ?_, ?_⟩ <;> decide

theorem fixedDigits_length (width n : Nat) : (fixedDigits width n).length = width := by
  induction width generalizing n with
  | zero => rfl
  | succ w ih => simp [fixedDigits, ih]

theorem digit_val (q : Nat) : ((Fin.ofNat (48 + q % 10) : Byte) : Nat) = 48 + q % 10 := by
  have h : q % 10 < 10 := Nat.mod_lt _ (by decide)
  simp only [Fin.ofNat]
  omega

theorem fixedDigits_lt (width : Nat) : ∀ a b : Nat, a < b → b < 10 ^ width →
    fixedDigits width a < fixedDigits width b := by
  induction width with
  | zero => intro a b hab hb; simp at hb; omega
  | succ w ih =>
    intro a b hab hb
    have hpos : 0 < 10 ^ w := Nat.pow_pos (by decide)
    have hq : a / 10 ^ w ≤ b / 10 ^ w := Nat.div_le_div_right (Nat.le_of_lt hab)
    have hqb : b / 10 ^ w < 10 := by
      rw [Nat.div_lt_iff_lt_mul hpos]; rw [pow_succ] at hb; omega
    have hqa : a / 10 ^ w < 10 := lt_of_le_of_lt hq hqb
    simp only [fixedDigits]
    rcases Nat.lt_or_eq_of_le hq with hlt | heq
    · apply List.Lex.rel
      rw [Fin.lt_def, digit_val, digit_val, Nat.mod_eq_of_lt hqa, Nat.mod_eq_of_lt hqb]
      omega
    · rw [heq]
      apply List.Lex.cons
      apply ih _ _ _ (Nat.mod_lt _ hpos)
      have ha := Nat.div_add_mod a (10 ^ w)
      have hb' := Nat.div_add_mod b (10 ^ w)
      rw [heq] at ha
      omega

theorem fixedDigits_le_iff (width a b : Nat) (ha : a < 10 ^ width) (hb : b < 10 ^ width) :
    fixedDigits width a ≤ fixedDigits width b ↔ a ≤ b := by
  constructor
  · intro h
    by_contra hn
    exact absurd (fixedDigits_lt width b a (by omega) ha) (not_lt.mpr h)
  · intro h
    rcases Nat.lt_or_eq_of_le h with hlt | heq
    · exact le_of_lt (fixedDigits_lt width a b hlt hb)
    · rw [heq]

theorem zeros_le (width : Nat) : ∀ n : Nat, fixedDigits width 0 ≤ fixedDigits width n := by
  induction width with
  | zero => intro n; exact le_refl _
  | succ w ih =>
    intro n
    simp only [fixedDigits, Nat.zero_div, Nat.zero_mod]
    rcases Nat.eq_zero_or_pos (n / 10 ^ w % 10) with h0 | hpos
    · rw [h0]
      rcases lt_or_eq_of_le (ih (n % 10 ^ w)) with hlt | heq
      · exact le_of_lt (List.Lex.cons hlt)
      · rw [heq]
    · apply le_of_lt
      apply List.Lex.rel
      rw [Fin.lt_def]
      have h1 := digit_val (n / 10 ^ w)
      have h2 := digit_val 0
      simp only [Nat.zero_mod] at h2
      omega

theorem formatName_length (width : Nat) (id : Int) : (formatName width id).length = width :=
  fixedDigits_length _ _

theorem sortDirNames_sorted (names : List GoString) :
    (sortDirNames names).Sorted (fun a b => b ≤ a) :=
  @List.sorted_insertionSort _ (fun a b : GoString => b ≤ a) _
    ⟨fun a b => le_total b a⟩ ⟨fun _ _ _ h1 h2 => le_trans h2 h1⟩ names

theorem mem_sortDirNames (names : List GoString) (n : GoString) :
    n ∈ sortDirNames names ↔ n ∈ names :=
  (List.perm_insertionSort _ names).mem_iff

/-- In a listing sorted descending, the first name that fits is the greatest
name that fits. -/
theorem firstFit_greatest (exact : GoString) : ∀ (l : List GoString),
    l.Sorted (fun a b => b ≤ a) → ∀ n, firstFit exact l = some n →
      n ∈ l ∧ fits exact n = true ∧ ∀ m ∈ l, fits exact m = true → m ≤ n := by
  intro l
  induction l with
  | nil => intro _ n h; simp [firstFit] at h
  | cons a l ih =>
    intro hs n h
    rw [List.sorted_cons] at hs
    simp only [firstFit, List.find?_cons] at h
    cases hfa : fits exact a with
    | true =>
      rw [hfa] at h
      simp only [Option.some.injEq] at h
      subst h
      refine ⟨List.mem_cons_self _ _, hfa, ?_⟩
      intro m hm _
      rcases List.mem_cons.mp hm with rfl | hm'
      · exact le_refl _
      · exact hs.1 m hm'
    | false =>
      rw [hfa] at h
      obtain ⟨h1, h2, h3⟩ := ih hs.2 n h
      refine ⟨List.mem_cons_of_mem _ h1, h2, ?_⟩
      intro m hm hfm
      rcases List.mem_cons.mp hm with rfl | hm'
      · rw [hfa] at hfm; exact absurd hfm (by decide)
      · exact h3 m hm' hfm

theorem firstFit_none (exact : GoString) (l : List GoString) :
    firstFit exact l = none ↔ ∀ m ∈ l, fits exact m = false := by
  simp [firstFit, List.find?_eq_none]

theorem fits_formatName (width : Nat) (id : Int) (n : GoString) :
    fits (formatName width id) n = (decide (n.length = width) && decide (n ≤ formatName width id)) := by
  simp only [fits, formatName_length]
  by_cases h : n.length = width <;> simp [h]

theorem firstFit_formatName (width : Nat) (id : Int) (l : List GoString) :
    firstFit (formatName width id) l
      = l.find? (fun n => decide (n.length = width) && decide (n ≤ formatName width id)) := by
  unfold firstFit
  congr 1
  funext n
  exact fits_formatName width id n

theorem getConsumeDat_miss (os : OS) (width : Nat) (consumeCache : Option Cache)
    (path : GoString) (id : Int) (names : List GoString)
    (hmiss : cacheHit consumeCache path (formatName width id) = none)
    (hdir : os.Readdirnames path = .ok names) :
    (getConsumeDat os width consumeCache path id).1
      = .ok ((firstFit (formatName width id) (sortDirNames names)).getD (formatName width 0)) := by
  unfold getConsumeDat
  simp only [hmiss, hdir]
  cases firstFit (formatName width id) (sortDirNames names) <;> rfl

theorem cacheHit_of_no_listing (consumeCache : Option Cache) (path exact : GoString)
    (hcache : ∀ c, consumeCache = some c → c.Load path = none) :
    cacheHit consumeCache path exact = none := by
  unfold cacheHit
  cases consumeCache with
  | none => rfl
  | some c => simp [hcache c rfl]

/-- C3, evaluated on the code: topic `u` has the segments `0000` and `0001`,
named with four digits.  The id 10000 is beyond the offsets four digits name:
`getConsumeDat` returns `0000`, where the highest starting offset `<= id` is 1,
segment `0001`. -/
theorem getConsumeDat_id_beyond_width :
    (getConsumeDat diskOS 4 none (ascii "r/u") 10000).1 = .ok (ascii "0000")
    ∧ formatName 4 1 = ascii "0001"
    ∧ diskOS.Readdirnames (ascii "r/u")
        = .ok [ascii "0000", ascii "0000.log", ascii "0001", ascii "0001.log"]
    ∧ (getConsumeDat diskOS 4 none (ascii "r/u") 10000).1 ≠ .ok (formatName 4 1) := by
  refine ⟨?_, ?_, ?_, ?_⟩ <;> decide

/-- C3 as amended: with no cached listing for the topic, a readable directory
whose names of the segment width are the names of the starting offsets
`offsets`, and an id (and offsets) below `10^width`, so that the name of the id
has the segment width: `getConsumeDat` sorts the listing descending
and returns the first name of the segment width that compares `<=`
`formatName(id)`, or `formatName(0)` when there is none; that name is the name
of the highest starting offset `<= id` when there is one, and `formatName(0)`
when every starting offset is above id. -/
theorem getConsumeDat_highest_offset (os : OS) (width : Nat) (consumeCache : Option Cache)
    (path : GoString) (id : Int) (names : List GoString) (offsets : List Nat)
    (hcache : ∀ c, consumeCache = some c → c.Load path = none)
    (hdir : os.Readdirnames path = .ok names)
    (hid : 0 ≤ id) (hidw : id < 10 ^ width)
    (hseg : ∀ n ∈ names, n.length = width → ∃ s ∈ offsets, n = formatName width (s : Nat))
    (hoff : ∀ s ∈ offsets, s < 10 ^ width ∧ formatName width (s : Nat) ∈ names) :
    (sortDirNames names).Sorted (fun a b => b ≤ a) ∧ (sortDirNames names).Perm names
    ∧ (getConsumeDat os width consumeCache path id).1
        = .ok (((sortDirNames names).find?
            (fun n => decide (n.length = width) && decide (n ≤ formatName width id))).getD
              (formatName width 0))
    ∧ ((∃ s ∈ offsets, (s : Int) ≤ id) →
        ∃ r ∈ offsets, (r : Int) ≤ id ∧ (∀ s ∈ offsets, (s : Int) ≤ id → s ≤ r)
          ∧ (getConsumeDat os width consumeCache path id).1 = .ok (formatName width (r : Nat)))
    ∧ ((∀ s ∈ offsets, id < (s : Int)) →
        (getConsumeDat os width consumeCache path id).1 = .ok (formatName width 0)) := by
  have hres := getConsumeDat_miss os width consumeCache path id names
    (cacheHit_of_no_listing consumeCache path _ hcache) hdir
  have hidn : id.toNat < 10 ^ width := by
    have : ((id.toNat : Nat) : Int) = id := Int.toNat_of_nonneg hid
    have h2 : ((id.toNat : Nat) : Int) < ((10 ^ width : Nat) : Int) := by
      rw [this]; exact_mod_cast hidw
    exact_mod_cast h2
  have hle : ∀ s : Nat, s < 10 ^ width →
      (formatName width (s : Nat) ≤ formatName width id ↔ (s : Int) ≤ id) := by
    intro s hs
    unfold formatName
    rw [Int.toNat_ofNat, fixedDigits_le_iff width s id.toNat hs hidn]
    omega
  have hfit : ∀ s ∈ offsets, (s : Int) ≤ id →
      fits (formatName width id) (formatName width (s : Nat)) = true := by
    intro s hs hsid
    rw [fits_formatName]
    simp [formatName_length, (hle s (hoff s hs).1).mpr hsid]
  refine ⟨sortDirNames_sorted names, List.perm_insertionSort _ names, ?_, ?_, ?_⟩
  · rw [hres, firstFit_formatName]
  · rintro ⟨s, hs, hsid⟩
    cases hff : firstFit (formatName width id) (sortDirNames names) with
    | none =>
      rw [firstFit_none] at hff
      have := hff _ ((mem_sortDirNames names _).mpr (hoff s hs).2)
      rw [hfit s hs hsid] at this
      exact absurd this (by decide)
    | some n =>
      obtain ⟨hmem, hfn, hmax⟩ := firstFit_greatest _ _ (sortDirNames_sorted names) n hff
      rw [fits_formatName] at hfn
      simp only [Bool.and_eq_true, decide_eq_true_eq] at hfn
      obtain ⟨r, hr, hnr⟩ := hseg n ((mem_sortDirNames names n).mp hmem) hfn.1
      subst hnr
      refine ⟨r, hr, (hle r (hoff r hr).1).mp hfn.2, ?_, ?_⟩
      · intro s' hs' hs'id
        have h1 := hmax _ ((mem_sortDirNames names _).mpr (hoff s' hs').2) (hfit s' hs' hs'id)
        unfold formatName at h1
        rw [Int.toNat_ofNat, Int.toNat_ofNat] at h1
        exact (fixedDigits_le_iff width s' r (hoff s' hs').1 (hoff r hr).1).mp h1
      · rw [hres, hff]; rfl
  · intro hall
    have hnone : firstFit (formatName width id) (sortDirNames names) = none := by
      rw [firstFit_none]
      intro m hm
      cases hfm : fits (formatName width id) m with
      | false => rfl
      | true =>
        rw [fits_formatName] at hfm
        simp only [Bool.and_eq_true, decide_eq_true_eq] at hfm
        obtain ⟨s, hs, hms⟩ := hseg m ((mem_sortDirNames names m).mp hm) hfm.1
        subst hms
        have := (hle s (hoff s hs).1).mp hfm.2
        have := hall s hs
        omega
    rw [hres, hnone]; rfl

/-- C3 as amended, at a concrete input: topic `u` (segments `0000` and `0001`), id = 2, four-digit
names: the segment selected is the one starting at offset 1. -/
theorem getConsumeDat_highest_offset_witness :
    (getConsumeDat diskOS 4 none (ascii "r/u") 2).1 = .ok (formatName 4 1)
    ∧ (getConsumeDat diskOS 4 none (ascii "r/u") 2).1
        = .ok (((sortDirNames [ascii "0000", ascii "0000.log", ascii "0001", ascii "0001.log"]).find?
            (fun n => decide (n.length = 4) && decide (n ≤ formatName 4 2))).getD (formatName 4 0)) := by
  have h := getConsumeDat_highest_offset diskOS 4 none (ascii "r/u") 2
    [ascii "0000", ascii "0000.log", ascii "0001", ascii "0001.log"] [0, 1]
    (by intro c hc; cases hc) (by decide) (by decide) (by decide) (by decide) (by decide)
  refine ⟨?_, h.2.2.1⟩
  obtain ⟨r, hr, hrid, hmax, hres⟩ := h.2.2.2.1 ⟨1, by decide, by decide⟩
  have h1 : 1 ≤ r := hmax 1 (by decide) (by decide)
  have h2 : r = 1 := by
    simp only [List.mem_cons, List.mem_singleton, List.not_mem_nil, or_false] at hr
    omega
  rw [hres, h2]
  rfl

theorem getConsumeDat_hit (os : OS) (width : Nat) (consumeCache : Option Cache)
    (path : GoString) (id : Int) (name : GoString)
    (h : cacheHit consumeCache path (formatName width id) = some name) :
    getConsumeDat os width consumeCache path id = (.ok name, consumeCache) := by
  simp only [getConsumeDat, h]

/-- C4, evaluated on the code: topic `u` has segments `0000` and `0001`, and
the cache still holds the listing stored when only `0000` existed.  For id = 2
the cached listing has a name that fits, so `getConsumeDat` returns `0000`
without reading the directory, where a fresh scan returns `0001`. -/
theorem getConsumeDat_stale_cache :
    (getConsumeDat diskOS 4 (some [(ascii "r/u", [ascii "0000.log", ascii "0000"])])
        (ascii "r/u") 2).1 = .ok (ascii "0000")
    ∧ (getConsumeDat diskOS 4 none (ascii "r/u") 2).1 = .ok (ascii "0001")
    ∧ (getConsumeDat diskOS 4 (some [(ascii "r/u", [ascii "0000.log", ascii "0000"])])
        (ascii "r/u") 2).1 ≠ (getConsumeDat diskOS 4 none (ascii "r/u") 2).1 := by
  refine ⟨?_, ?_, ?_⟩ <;> decide

/-- C4 as amended: when the cached listing of the topic has a name that fits,
`getConsumeDat` returns the first such name and leaves the cache as it is,
whatever the directory holds now; when the cache is off, has no listing for the
topic or has a listing with no name that fits, and also when the cached
listing is the sorted current listing, it returns what a fresh directory scan
returns. -/
theorem getConsumeDat_cache (os : OS) (width : Nat) (consumeCache : Option Cache)
    (path : GoString) (id : Int) :
    (∀ name, cacheHit consumeCache path (formatName width id) = some name →
        getConsumeDat os width consumeCache path id = (.ok name, consumeCache))
    ∧ (cacheHit consumeCache path (formatName width id) = none →
        (getConsumeDat os width consumeCache path id).1
          = (getConsumeDat os width none path id).1)
    ∧ (∀ c names, consumeCache = some c → os.Readdirnames path = .ok names →
        c.Load path = some (sortDirNames names) →
        (getConsumeDat os width consumeCache path id).1
          = (getConsumeDat os width none path id).1) := by
  refine ⟨?_, ?_, ?_⟩
  · intro name h
    exact getConsumeDat_hit os width consumeCache path id name h
  · intro h
    have h0 : cacheHit none path (formatName width id) = none := rfl
    simp only [getConsumeDat, h, h0]
    cases os.Readdirnames path with
    | error e => rfl
    | ok names =>
      simp only
      cases firstFit (formatName width id) (sortDirNames names) <;> rfl
  · intro c names hc hdir hload
    subst hc
    have h0 : cacheHit none path (formatName width id) = none := rfl
    have h1 : cacheHit (some c) path (formatName width id)
        = firstFit (formatName width id) (sortDirNames names) := by
      simp only [cacheHit, hload]
    simp only [getConsumeDat, h0, h1, hdir]
    cases firstFit (formatName width id) (sortDirNames names) <;> rfl

/-- C4 as amended, at concrete inputs: a cached listing of topic `u` with a name
that fits is answered from the cache; a cache holding only another topic's
listing is answered as by a fresh scan. -/
theorem getConsumeDat_cache_witness :
    getConsumeDat diskOS 4 (some [(ascii "r/u", [ascii "0000.log", ascii "0000"])])
        (ascii "r/u") 2
      = (.ok (ascii "0000"), some [(ascii "r/u", [ascii "0000.log", ascii "0000"])])
    ∧ (getConsumeDat diskOS 4 (some [(ascii "r/t", [ascii "0000.log", ascii "0000"])])
        (ascii "r/u") 2).1 = (getConsumeDat diskOS 4 none (ascii "r/u") 2).1 :=
  ⟨(getConsumeDat_cache diskOS 4 (some [(ascii "r/u", [ascii "0000.log", ascii "0000"])])
      (ascii "r/u") 2).1 (ascii "0000") (by decide),
   (getConsumeDat_cache diskOS 4 (some [(ascii "r/t", [ascii "0000.log", ascii "0000"])])
      (ascii "r/u") 2).2.1 (by decide)⟩

/-! ### The decoding loop -/

theorem uint64At_eq (data : List Byte) (n : Nat) (h : n + 8 ≤ data.length) :
    uint64At data n = some (le64 (data.drop n)) := by
  unfold uint64At sliceFrom Uint64
  have h1 : n ≤ data.length := by omega
  have h2 : ¬ (data.drop n).length < 8 := by rw [List.length_drop]; omega
  rw [if_pos h1, Option.some_bind, if_neg h2]

theorem uint64At_none (data : List Byte) (n : Nat) (h : data.length < n + 8) :
    uint64At data n = none := by
  unfold uint64At sliceFrom Uint64
  by_cases h1 : n ≤ data.length
  · have h2 : (data.drop n).length < 8 := by rw [List.length_drop]; omega
    rw [if_pos h1, Option.some_bind, if_pos h2]
  · rw [if_neg h1, Option.none_bind]

theorem loopBody_eq (data : List Byte) (i : Nat) (st : LoopState)
    (h : i * 32 + 32 ≤ data.length) :
    loopBody data i st = some
      { sizes := st.sizes.set i (toInt64 (le64 (data.drop (i * 32 + 24))))
        endAt := (st.endAt + le64 (data.drop (i * 32 + 24))) % 2 ^ 64
        endTime := if i = st.sizes.length - 1 then toInt64 (le64 (data.drop (i * 32 + 8)))
          else st.endTime } := by
  unfold loopBody
  rw [uint64At_eq data (i * 32 + 24) (by omega), uint64At_eq data (i * 32 + 8) (by omega)]
  simp only [List.length_set]
  split <;> rfl

theorem foldr_bytes_lt : ∀ (l : List Byte),
    l.foldr (fun x acc => x.val + 256 * acc) 0 < 256 ^ l.length := by
  intro l
  induction l with
  | nil => simp
  | cons a l ih =>
    simp only [List.foldr_cons, List.length_cons, pow_succ]
    have := a.isLt
    omega

theorem le64_lt (b : List Byte) : le64 b < 2 ^ 64 := by
  unfold le64
  have h1 := foldr_bytes_lt (b.take 8)
  have h2 : (b.take 8).length ≤ 8 := by simp
  have h3 : 256 ^ (b.take 8).length ≤ 256 ^ 8 := Nat.pow_le_pow_right (by decide) h2
  have h4 : (256 : Nat) ^ 8 = 2 ^ 64 := by norm_num
  omega

theorem take_succ_set (l : List Int) (i : Nat) (v : Int) (h : i < l.length) :
    (l.set i v).take (i + 1) = l.take i ++ [v] := by
  rw [List.take_succ, List.set_take, List.set_eq_of_length_le (by simp),
    List.getElem?_set, if_pos rfl, if_pos h]
  rfl

theorem loop_eq (data : List Byte) (L : Nat) (hL : L * 32 ≤ data.length) :
    ∀ (n i : Nat) (st : LoopState), i + n = L → st.sizes.length = L → st.endAt < 2 ^ 64 →
      loop data n i st = some
        { sizes := st.sizes.take i
            ++ (List.range' i n).map (fun j => toInt64 (le64 (data.drop (j * 32 + 24))))
          endAt := (st.endAt
            + ((List.range' i n).map (fun j => le64 (data.drop (j * 32 + 24)))).sum) % 2 ^ 64
          endTime := if n = 0 then st.endTime
            else toInt64 (le64 (data.drop ((L - 1) * 32 + 8))) } := by
  intro n
  induction n with
  | zero =>
    intro i st hi hlen hend
    have h1 : st.sizes.take i = st.sizes := by
      apply List.take_of_length_le; omega
    simp only [loop, h1, List.range'_zero, List.map_nil, List.append_nil, List.sum_nil,
      Nat.add_zero, Nat.mod_eq_of_lt hend, if_true]
  | succ n ih =>
    intro i st hi hlen hend
    have hbody := loopBody_eq data i st (by omega)
    simp only [loop, hbody, Option.some_bind]
    rw [ih (i + 1) _ (by omega) (by simp [hlen]) (Nat.mod_lt _ (by norm_num))]
    simp only [List.range'_succ, List.map_cons, List.sum_cons]
    rw [take_succ_set _ _ _ (by omega)]
    have hsz : (st.sizes.take i ++ [toInt64 (le64 (data.drop (i * 32 + 24)))])
          ++ (List.range' (i + 1) n).map (fun j => toInt64 (le64 (data.drop (j * 32 + 24))))
        = st.sizes.take i ++ toInt64 (le64 (data.drop (i * 32 + 24)))
          :: (List.range' (i + 1) n).map (fun j => toInt64 (le64 (data.drop (j * 32 + 24)))) := by
      rw [List.append_assoc]; rfl
    have hsum : ∀ a b c : Nat, ((a + b) % 2 ^ 64 + c) % 2 ^ 64 = (a + (b + c)) % 2 ^ 64 := by
      intro a b c
      rw [Nat.add_mod, Nat.mod_mod, ← Nat.add_mod, Nat.add_assoc]
    have htime : (if n = 0 then
          (if i = st.sizes.length - 1 then toInt64 (le64 (data.drop (i * 32 + 8)))
            else st.endTime)
        else toInt64 (le64 (data.drop ((L - 1) * 32 + 8))))
        = toInt64 (le64 (data.drop ((L - 1) * 32 + 8))) := by
      by_cases hn : n = 0
      · have h1 : i = st.sizes.length - 1 := by omega
        have h2 : L - 1 = i := by omega
        rw [if_pos hn, if_pos h1, h2]
      · rw [if_neg hn]
    rw [hsz, hsum, htime, if_neg (Nat.succ_ne_zero n)]

theorem toInt64_of_range (x : Int) (h1 : -(2 ^ 63) ≤ x) (h2 : x < 2 ^ 63) : toInt64 x = x := by
  unfold toInt64
  omega

theorem toUint64_toInt64 (u : Nat) (h : u < 2 ^ 64) : toUint64 (toInt64 (u : Int)) = u := by
  unfold toUint64 toInt64
  omega

theorem toInt64_of_high (u : Nat) (h1 : 2 ^ 63 ≤ u) (h2 : u < 2 ^ 64) :
    toInt64 (u : Int) = (u : Int) - 2 ^ 64 := by
  unfold toInt64
  omega

/-- What `consumeResponse` does with a buffer that holds `k` whole entries
(and at least 24 bytes): it decodes them, and answers according to whether
the log file opens. -/
theorem consumeResponse_eq (os : OS) (data : List Byte) (k : Nat) (filename : GoString)
    (hk : k * 32 ≤ data.length) (h24 : 24 ≤ data.length) :
    consumeResponse os data (k : Int) filename =
      match os.Open filename with
      | .error err =>
        if IsNotExist err then ⟨.ret (0, some .ErrTopicDoesNotExist), none⟩
        else ⟨.ret (0, some err), none⟩
      | .ok _ =>
        ⟨.ret ((k : Int), none),
          some { startTime := toInt64 (timeField data 0)
                 endTime := toInt64 (timeField data (k - 1))
                 fileName := filename
                 contentType := "application/octet-stream"
                 sizes := (List.range k).map (fun i => toInt64 (sizeField data i))
                 range := "bytes=" ++ toString (positionField data 0) ++ "-"
                   ++ toString ((positionField data 0 + sizesSum data k + (2 ^ 64 - 1)) % 2 ^ 64) }⟩ := by
  unfold consumeResponse
  have hneg : ¬ ((k : Int) < 0) := by omega
  rw [if_neg hneg, uint64At_eq data 8 (by omega), uint64At_eq data 16 (by omega)]
  simp only [Int.toNat_ofNat]
  have hloop := loop_eq data k hk k 0
    { sizes := List.replicate k 0, endAt := le64 (data.drop 16),
      endTime := toInt64 (le64 (data.drop 8)) }
    (Nat.zero_add k) (List.length_replicate _ _) (le64_lt _)
  rw [hloop]
  simp only [List.take_zero, List.nil_append, List.length_map, List.length_range']
  have htime : (if k = 0 then toInt64 (le64 (data.drop 8))
      else toInt64 (le64 (data.drop ((k - 1) * 32 + 8)))) = toInt64 (timeField data (k - 1)) := by
    unfold timeField
    by_cases hk0 : k = 0
    · have h8 : (k - 1) * 32 + 8 = 8 := by omega
      rw [if_pos hk0, h8]
    · rw [if_neg hk0]
  have hsum : ((le64 (data.drop 16)
        + ((List.range' 0 k).map (fun j => le64 (data.drop (j * 32 + 24)))).sum) % 2 ^ 64
      + (2 ^ 64 - 1)) % 2 ^ 64
      = (positionField data 0 + sizesSum data k + (2 ^ 64 - 1)) % 2 ^ 64 := by
    unfold positionField sizesSum sizeField
    rw [List.range_eq_range']
    exact Nat.ModEq.add_right _ (Nat.mod_modEq _ _)
  have hsizes : (List.range' 0 k).map (fun j => toInt64 ((le64 (data.drop (j * 32 + 24)) : Nat) : Int))
      = (List.range k).map (fun i => toInt64 (sizeField data i)) := by
    rw [List.range_eq_range']; rfl
  have htime0 : toInt64 (le64 (data.drop 8)) = toInt64 (timeField data 0) := rfl
  have hpos : le64 (data.drop 16) = positionField data 0 := rfl
  rw [htime, hsum, hsizes, htime0, hpos]

/-- C6, evaluated on the code: an entry whose size field is `2^63` is reported
with the size `-9223372036854775808`, the field converted to `int64`, not with
the uint64 of the field; and for the one entry of topic `v`, whose log file is
missing, no size is reported and the count is 0 with `ErrTopicDoesNotExist`,
not 1. -/
theorem consumeResponse_size_wraps :
    sizeField (indexEntry 0 0 0 (2 ^ 63)) 0 = 2 ^ 63
    ∧ (consumeResponse diskOS (indexEntry 0 0 0 (2 ^ 63)) 1 (ascii "r/t/0000.log")).headers.map
        (fun h => h.sizes) = some [-9223372036854775808]
    ∧ (consumeResponse diskOS (indexEntry 0 0 0 (2 ^ 63)) 1 (ascii "r/t/0000.log")).headers.map
        (fun h => h.sizes) ≠ some [((sizeField (indexEntry 0 0 0 (2 ^ 63)) 0 : Nat) : Int)]
    ∧ consumeResponse diskOS (indexEntry 0 9 0 1) 1 (ascii "r/v/0000.log")
        = ⟨.ret (0, some .ErrTopicDoesNotExist), none⟩ := by
  refine ⟨?_, ?_, ?_, ?_⟩ <;> decide

/-- C6 as amended: for a buffer holding `k >= 1` entries, when the log file
opens `consumeResponse` returns the count `k` and hands `headers.SetSizes`
exactly `k` sizes in entry order, size `i` being the little-endian uint64 at
bytes 24..31 of entry `i` (offset `i*32+24`) converted to `int64`: the field
itself when it is below `2^63`, the field minus `2^64` otherwise (read back as
a uint64 it is the field); when the log file does not open, no header is set
and the count is 0, with `ErrTopicDoesNotExist` for a file that does not exist
and the error of `os.Open` otherwise. -/
theorem consumeResponse_sizes (os : OS) (data : List Byte) (k : Nat) (filename : GoString)
    (hk : 1 ≤ k) (hlen : k * 32 ≤ data.length) :
    (∀ f, os.Open filename = .ok f →
      (consumeResponse os data (k : Int) filename).ret = .ret ((k : Int), none)
      ∧ ∃ h, (consumeResponse os data (k : Int) filename).headers = some h
        ∧ h.sizes.length = k
        ∧ h.sizes = (List.range k).map (fun i => toInt64 (le64 (data.drop (i * 32 + 24))))
        ∧ h.sizes.map toUint64 = (List.range k).map (fun i => le64 (data.drop (i * 32 + 24)))
        ∧ (∀ i, i < k → le64 (data.drop (i * 32 + 24)) < 2 ^ 63 →
            h.sizes[i]? = some (le64 (data.drop (i * 32 + 24)) : Int))
        ∧ (∀ i, i < k → 2 ^ 63 ≤ le64 (data.drop (i * 32 + 24)) →
            h.sizes[i]? = some ((le64 (data.drop (i * 32 + 24)) : Int) - 2 ^ 64)))
    ∧ (∀ err, os.Open filename = .error err →
      (consumeResponse os data (k : Int) filename).headers = none
      ∧ (consumeResponse os data (k : Int) filename).ret
          = .ret (0, some (if IsNotExist err then .ErrTopicDoesNotExist else err))) := by
  have heq := consumeResponse_eq os data k filename hlen (by omega)
  constructor
  · intro f hopen
    rw [hopen] at heq
    simp only at heq
    rw [heq]
    refine ⟨rfl, _, rfl, ?_, ?_, ?_, ?_, ?_⟩
    · simp only [List.length_map, List.length_range]
    · rfl
    · rw [List.map_map]
      apply List.map_congr_left
      intro i _
      rw [Function.comp_apply]
      exact toUint64_toInt64 _ (le64_lt _)
    · intro i hi hlt
      have h1 : toInt64 (sizeField data i : Int) = le64 (data.drop (i * 32 + 24)) :=
        toInt64_of_range _ (Int.le_trans (by decide) (Int.ofNat_nonneg _)) (by unfold sizeField; omega)
      rw [List.getElem?_map, List.getElem?_range hi, Option.map_some', h1]
    · intro i hi hge
      have h1 : toInt64 (sizeField data i : Int) = (le64 (data.drop (i * 32 + 24)) : Int) - 2 ^ 64 :=
        toInt64_of_high _ hge (le64_lt _)
      rw [List.getElem?_map, List.getElem?_range hi, Option.map_some', h1]
  · intro err hopen
    rw [hopen] at heq
    simp only at heq
    rw [heq]
    cases hne : IsNotExist err
    · exact ⟨rfl, rfl⟩
    · exact ⟨rfl, rfl⟩

/-- C6 as amended, at concrete inputs: the three entries of the index of topic
`t` are reported with the sizes 1, 2 and 3 and the count 3; the entry of topic
`v`, whose log file is missing, gives the count 0 with `ErrTopicDoesNotExist`. -/
theorem consumeResponse_sizes_witness :
    ((consumeResponse diskOS indexT 3 (ascii "r/t/0000.log")).ret = .ret (3, none)
      ∧ ∃ h, (consumeResponse diskOS indexT 3 (ascii "r/t/0000.log")).headers = some h
        ∧ h.sizes = [1, 2, 3])
    ∧ (consumeResponse diskOS (indexEntry 0 9 0 1) 1 (ascii "r/v/0000.log")).ret
        = .ret (0, some .ErrTopicDoesNotExist) := by
  obtain ⟨hret, h, hh, _, hs, _⟩ :=
    (consumeResponse_sizes diskOS indexT 3 (ascii "r/t/0000.log") (by decide) (by decide)).1
      ⟨ascii "abbccc", none, none⟩ (by decide)
  refine ⟨⟨hret, h, hh, ?_⟩, ?_⟩
  · rw [hs]
    decide
  · exact ((consumeResponse_sizes diskOS (indexEntry 0 9 0 1) 1 (ascii "r/v/0000.log")
      (by decide) (by decide)).2 errNoSuchFile (by decide)).2

/-- C7, evaluated on the code: one entry whose log position is `2^64 - 1` and
whose size is 2.  The sizes sum to 2, but `endAt` wraps around: the header is
`bytes=18446744073709551615-0`, not `start + sum(sizes) - 1 = 2^64`. -/
theorem consumeResponse_range_wraps :
    positionField (indexEntry 0 0 (2 ^ 64 - 1) 2) 0 = 2 ^ 64 - 1
    ∧ sizesSum (indexEntry 0 0 (2 ^ 64 - 1) 2) 1 = 2
    ∧ (consumeResponse diskOS (indexEntry 0 0 (2 ^ 64 - 1) 2) 1 (ascii "r/t/0000.log")).headers.map
        (fun h => h.range) = some "bytes=18446744073709551615-0"
    ∧ (consumeResponse diskOS (indexEntry 0 0 (2 ^ 64 - 1) 2) 1 (ascii "r/t/0000.log")).headers.map
        (fun h => h.range) ≠ some ("bytes=" ++ toString (2 ^ 64 - 1) ++ "-"
          ++ toString (2 ^ 64 - 1 + 2 - 1)) := by
  refine ⟨?_, ?_, ?_, ?_⟩ <;> decide

/-- C7 as amended: for a buffer of `k >= 1` entries and a log file that opens,
the Range header is `bytes=<start>-<end>` with `start` the little-endian uint64
at bytes 16..23 of the first entry and `end = (start + sum(sizes) - 1) mod 2^64`;
when the sizes sum to at least 1 and `start + sum(sizes)` does not exceed
`2^64`, `end = start + sum(sizes) - 1` and the range length `end - start + 1`
is `sum(sizes)`. -/
theorem consumeResponse_range (os : OS) (data : List Byte) (k : Nat) (filename : GoString)
    (f : File) (hk : 1 ≤ k) (hlen : k * 32 ≤ data.length) (hopen : os.Open filename = .ok f) :
    ∃ h, (consumeResponse os data (k : Int) filename).headers = some h
      ∧ h.range = "bytes=" ++ toString (le64 (data.drop 16)) ++ "-"
          ++ toString ((le64 (data.drop 16) + sizesSum data k + (2 ^ 64 - 1)) % 2 ^ 64)
      ∧ (1 ≤ sizesSum data k → le64 (data.drop 16) + sizesSum data k ≤ 2 ^ 64 →
          h.range = "bytes=" ++ toString (le64 (data.drop 16)) ++ "-"
            ++ toString (le64 (data.drop 16) + sizesSum data k - 1)
          ∧ (le64 (data.drop 16) + sizesSum data k - 1) - le64 (data.drop 16) + 1
              = sizesSum data k) := by
  have heq := consumeResponse_eq os data k filename hlen (by omega)
  rw [hopen] at heq
  simp only at heq
  rw [heq]
  have hp : positionField data 0 = le64 (data.drop 16) := rfl
  refine ⟨_, rfl, ?_, ?_⟩
  · rw [hp]
  · intro h1 h2
    have hend : (le64 (data.drop 16) + sizesSum data k + (2 ^ 64 - 1)) % 2 ^ 64
        = le64 (data.drop 16) + sizesSum data k - 1 := by
      omega
    refine ⟨?_, by omega⟩
    rw [hp, hend]

/-- C7 as amended, at a concrete input: the three entries of the index of topic
`t` start at byte 0 and their sizes sum to 6. -/
theorem consumeResponse_range_witness :
    ∃ h, (consumeResponse diskOS indexT 3 (ascii "r/t/0000.log")).headers = some h
      ∧ h.range = "bytes=0-5" := by
  obtain ⟨h, hh, _, hr⟩ := consumeResponse_range diskOS indexT 3 (ascii "r/t/0000.log")
    ⟨ascii "abbccc", none, none⟩ (by decide) (by decide) (by decide)
  refine ⟨h, hh, ?_⟩
  have h1 : sizesSum indexT 3 = 6 := by decide
  have h2 : le64 (indexT.drop 16) = 0 := by decide
  have := (hr (by rw [h1]; decide) (by rw [h1, h2]; decide)).1
  rw [this, h1, h2]
  decide

theorem ReadAt_eq (f : File) (len o : Nat) (hlen : len ≠ 0) (hread : f.readErr = none) :
    f.ReadAt len (o : Int) =
      { data := (f.content.drop o).take len
          ++ List.replicate (len - ((f.content.drop o).take len).length) 0
        length := ((f.content.drop o).take len).length
        err := if ((f.content.drop o).take len).length < len then some .EOF else none } := by
  unfold File.ReadAt
  have h0 : ¬ ((o : Int) < 0) := by omega
  rw [if_neg h0, if_neg hlen, hread, Int.toNat_ofNat]

theorem datEntryLength_eq : datEntryLength = 32 := rfl

theorem alloc_ok (a m : Nat) (h : a ≤ m) : ¬ (((a : Nat) : Int) < 0 ∨ ((m : Nat) : Int) < ((a : Nat) : Int)) := by
  omega

theorem alloc_too_large (a m : Nat) (h : m < a) :
    ((a : Nat) : Int) < 0 ∨ ((m : Nat) : Int) < ((a : Nat) : Int) := by
  omega

theorem limit_alloc_nat (l m : Nat) (h : (l : Int) * 32 ≤ (m : Int)) (hm : m < 2 ^ 63) :
    l * 32 ≤ m ∧ l < 2 ^ 58 := by
  omega

theorem rest_alloc_nat (N i m : Nat) (hi : i < N) (h : ((N : Int) - (i : Int)) * 32 ≤ (m : Int)) :
    (N - i) * 32 ≤ m := by
  omega

theorem readIndex_eq (os : OS) (dat : File) (path : GoString) (N i n : Nat) (limit : Int)
    (hstat : dat.statErr = none) (hread : dat.readErr = none)
    (hsize : dat.content.length = N * 32) (hfit : N * 32 < 2 ^ 63) (hi : i < N)
    (hn1 : 1 ≤ n) (hn : n < 2 ^ 58) (halloc : n * 32 ≤ os.maxAlloc)
    (hlim : (if limit < 0 then
        (toInt64 ((dat.content.length : Int) - toInt64 ((i : Int) * datEntryLength))).tdiv
          datEntryLength
      else limit) = (n : Int)) :
    readIndex os dat path (i : Int) limit
      = consumeResponse os (dat.ReadAt (n * 32) ((i * 32 : Nat) : Int)).data
          ((min n (N - i) : Nat) : Int) (path ++ ascii ".log") := by
  have hoff : toInt64 ((i : Int) * datEntryLength) = ((i * 32 : Nat) : Int) := by
    rw [datEntryLength_eq, toInt64_of_range _ (by omega) (by omega)]
    omega
  have hlen : toInt64 ((n : Int) * datEntryLength) = ((n * 32 : Nat) : Int) := by
    rw [datEntryLength_eq, toInt64_of_range _ (by omega) (by omega)]
    omega
  unfold readIndex
  rw [hstat]
  simp only []
  rw [hlim, hoff, hlen, hsize]
  have h1 : ¬ (((N * 32 : Nat) : Int) < ((i * 32 : Nat) : Int)) := by omega
  have h2 := alloc_ok (n * 32) os.maxAlloc halloc
  rw [if_neg h1, if_neg h2, Int.toNat_ofNat, ReadAt_eq dat (n * 32) (i * 32) (by omega) hread]
  simp only []
  have hgot : ((dat.content.drop (i * 32)).take (n * 32)).length = min n (N - i) * 32 := by
    rw [List.length_take, List.length_drop, hsize]
    omega
  rw [hgot]
  have h3 : ((if min n (N - i) * 32 < n * 32 then some GoError.EOF else none).isSome
      && min n (N - i) * 32 == 0) = false := by
    have : (min n (N - i) * 32 == 0) = false := by
      rw [beq_eq_false_iff_ne]; omega
    rw [this, Bool.and_false]
  rw [h3]
  have h4 : ((min n (N - i) * 32 : Nat) : Int).tdiv datEntryLength = ((min n (N - i) : Nat) : Int) := by
    rw [datEntryLength_eq, Int.tdiv_eq_ediv (by omega) (by decide)]
    omega
  rw [h4]
  rfl

theorem readIndex_no_alloc (os : OS) (dat : File) (path : GoString) (N i l : Nat)
    (hstat : dat.statErr = none)
    (hsize : dat.content.length = N * 32) (hfit : N * 32 < 2 ^ 63) (hi : i < N)
    (hl1 : 1 ≤ l) (hl : l < 2 ^ 58) (hbig : os.maxAlloc < l * 32) :
    readIndex os dat path (i : Int) (l : Int) = ⟨.panicked, none⟩ := by
  have hoff : toInt64 ((i : Int) * datEntryLength) = ((i * 32 : Nat) : Int) := by
    rw [datEntryLength_eq, toInt64_of_range _ (by omega) (by omega)]
    omega
  have hlen : toInt64 ((l : Int) * datEntryLength) = ((l * 32 : Nat) : Int) := by
    rw [datEntryLength_eq, toInt64_of_range _ (by omega) (by omega)]
    omega
  have hl0 : ¬ ((l : Int) < 0) := by omega
  unfold readIndex
  rw [hstat]
  simp only []
  rw [if_neg hl0, hoff, hlen, hsize]
  have h1 : ¬ (((N * 32 : Nat) : Int) < ((i * 32 : Nat) : Int)) := by omega
  rw [if_neg h1, if_pos (alloc_too_large (l * 32) os.maxAlloc hbig)]

theorem ReadAt_data_length (f : File) (len o : Nat) (hlen : len ≠ 0) (hread : f.readErr = none) :
    (f.ReadAt len (o : Int)).data.length = len := by
  rw [ReadAt_eq f len o hlen hread]
  simp only [List.length_append, List.length_replicate, List.length_take]
  omega

theorem ReadAt_length (f : File) (len o : Nat) (hlen : len ≠ 0) (hread : f.readErr = none) :
    (f.ReadAt len (o : Int)).length = min len (f.content.length - o) := by
  rw [ReadAt_eq f len o hlen hread]
  simp only [List.length_take, List.length_drop]

theorem length_of_fits (width : Nat) (id : Int) (n : GoString)
    (h : fits (formatName width id) n = true) : n.length = width := by
  rw [fits_formatName] at h
  simp only [Bool.and_eq_true, decide_eq_true_eq] at h
  exact h.1

theorem firstFit_mem (exact : GoString) (l : List GoString) (n : GoString)
    (h : firstFit exact l = some n) : n ∈ l ∧ fits exact n = true :=
  ⟨List.mem_of_find?_eq_some h, List.find?_some h⟩

/-- In a topic whose only segment starts at offset 0, `getConsumeDat` selects
that segment for every id. -/
theorem getConsumeDat_single (os : OS) (width : Nat) (consumeCache : Option Cache)
    (path : GoString) (id : Int) (names : List GoString)
    (hcache : ∀ c l, consumeCache = some c → c.Load path = some l →
      ∀ n ∈ l, n.length = width → n = formatName width 0)
    (hdir : os.Readdirnames path = .ok names)
    (hnames : ∀ n ∈ names, n.length = width → n = formatName width 0) :
    ∃ cache, getConsumeDat os width consumeCache path id = (.ok (formatName width 0), cache) := by
  cases hhit : cacheHit consumeCache path (formatName width id) with
  | some name =>
    refine ⟨consumeCache, ?_⟩
    have hname : name = formatName width 0 := by
      unfold cacheHit at hhit
      cases consumeCache with
      | none => cases hhit
      | some c =>
        simp only at hhit
        cases hload : c.Load path with
        | none => rw [hload] at hhit; cases hhit
        | some l =>
          rw [hload] at hhit
          simp only at hhit
          obtain ⟨hm, hf⟩ := firstFit_mem _ _ _ hhit
          exact hcache c l rfl hload name hm (length_of_fits width id name hf)
    rw [getConsumeDat_hit os width consumeCache path id name hhit, hname]
  | none =>
    unfold getConsumeDat
    simp only [hhit, hdir]
    cases hff : firstFit (formatName width id) (sortDirNames names) with
    | none => exact ⟨_, rfl⟩
    | some n =>
      obtain ⟨hm, hf⟩ := firstFit_mem _ _ _ hff
      have := hnames n ((mem_sortDirNames names n).mp hm) (length_of_fits width id n hf)
      rw [this]
      exact ⟨_, rfl⟩

theorem Consume_of_dat (os : OS) (width : Nat) (q : FileQueue) (topic root datName : GoString)
    (id limit : Int) (cache : Option Cache) (dat : File)
    (hroot : q.rootDirNames.getLast? = some root)
    (hget : getConsumeDat os width q.consumeCache (os.Join [root, topic]) id = (.ok datName, cache))
    (hdat : os.Open (os.Join [root, topic, datName]) = .ok dat) :
    Consume os width q topic id limit
      = (readIndex os dat (os.Join [root, topic, datName]) id limit, cache) := by
  unfold Consume
  simp only [hroot, hget, hdat]

/-- The count `Consume` returns in a topic whose single segment starts at 0
and holds `N` whole entries, once the limit is resolved to `n >= 1` entries. -/
theorem Consume_count_aux (os : OS) (width : Nat) (q : FileQueue) (topic root : GoString)
    (names : List GoString) (dat logf : File) (N i n : Nat) (limit : Int)
    (hroot : q.rootDirNames.getLast? = some root)
    (hcache : ∀ c l, q.consumeCache = some c → c.Load (os.Join [root, topic]) = some l →
      ∀ n ∈ l, n.length = width → n = formatName width 0)
    (hdir : os.Readdirnames (os.Join [root, topic]) = .ok names)
    (hnames : ∀ n ∈ names, n.length = width → n = formatName width 0)
    (hdat : os.Open (os.Join [root, topic, formatName width 0]) = .ok dat)
    (hstat : dat.statErr = none) (hread : dat.readErr = none)
    (hsize : dat.content.length = N * 32) (hfit : N * 32 < 2 ^ 63)
    (hlog : os.Open (os.Join [root, topic, formatName width 0] ++ ascii ".log") = .ok logf)
    (hi : i < N) (hn1 : 1 ≤ n) (hn : n < 2 ^ 58) (halloc : n * 32 ≤ os.maxAlloc)
    (hlim : (if limit < 0 then
        (toInt64 ((dat.content.length : Int) - toInt64 ((i : Int) * datEntryLength))).tdiv
          datEntryLength
      else limit) = (n : Int)) :
    (Consume os width q topic (i : Int) limit).1.ret = .ret (((min n (N - i) : Nat) : Int), none)
    ∧ (dat.ReadAt (n * 32) ((i * 32 : Nat) : Int)).length / 32 = min n (N - i) := by
  obtain ⟨cache, hget⟩ := getConsumeDat_single os width q.consumeCache (os.Join [root, topic])
    (i : Int) names hcache hdir hnames
  rw [Consume_of_dat os width q topic root _ _ limit cache dat hroot hget hdat]
  rw [readIndex_eq os dat _ N i n limit hstat hread hsize hfit hi hn1 hn halloc hlim]
  have hdl := ReadAt_data_length dat (n * 32) (i * 32) (by omega) hread
  have hrl := ReadAt_length dat (n * 32) (i * 32) (by omega) hread
  constructor
  · have heq := consumeResponse_eq os (dat.ReadAt (n * 32) ((i * 32 : Nat) : Int)).data
      (min n (N - i)) (os.Join [root, topic, formatName width 0] ++ ascii ".log")
      (by rw [hdl]; omega) (by rw [hdl]; omega)
    rw [hlog] at heq
    simp only at heq
    rw [heq]
  · rw [hrl, hsize]
    omega

/-- C5, evaluated on the code: topic `t` holds N = 3 entries; with id = 0 and
limit = `2^59` the product `limit*datEntryLength` wraps around to 0, the
buffer is empty and the call panics, where the claim has count
`min(limit, N - id) = 3`; with limit = `2^50` the buffer of `2^55` bytes cannot
be allocated and the call does not return either. -/
theorem Consume_limit_wraps :
    (Consume diskOS 4 diskQueue (ascii "t") 0 (2 ^ 59)).1.ret
      = .panicked
    ∧ (Consume diskOS 4 diskQueue (ascii "t") 0 (2 ^ 59)).1.ret
      ≠ .ret (min (2 ^ 59) (3 - 0), none)
    ∧ (Consume diskOS 4 diskQueue (ascii "t") 0 (2 ^ 50)).1.ret = .panicked := by
  refine ⟨?_, ?_, ?_⟩ <;> decide

theorem cast_min_self (N i : Nat) (h : i < N) :
    ((min (N - i) (N - i) : Nat) : Int) = (N : Int) - (i : Int) := by omega

theorem cast_min (l N i : Nat) (h : i < N) :
    ((min l (N - i) : Nat) : Int) = min (l : Int) ((N : Int) - (i : Int)) := by omega

/-- C5 as amended: in a topic whose single segment starts at offset 0 and
holds `N` whole 32-byte entries (the index and the log open and read without
an error), for `0 <= id < N`: with `limit < 0` `Consume` returns the count
`N - id` when the `(N - id)*32` bytes of the buffer can be allocated, and with
`limit >= 1` it returns the count `min(limit, N - id)` when the `limit*32`
bytes of the buffer can be allocated; in both cases the count is the number of
bytes `ReadAt` read, divided by 32.  With `limit >= 1` and a buffer of
`limit*32 < 2^63` bytes that cannot be allocated, the call does not return. -/
theorem Consume_count (os : OS) (width : Nat) (q : FileQueue) (topic root : GoString)
    (names : List GoString) (dat logf : File) (N : Nat) (id limit : Int)
    (hroot : q.rootDirNames.getLast? = some root)
    (hcache : ∀ c l, q.consumeCache = some c → c.Load (os.Join [root, topic]) = some l →
      ∀ n ∈ l, n.length = width → n = formatName width 0)
    (hdir : os.Readdirnames (os.Join [root, topic]) = .ok names)
    (hnames : ∀ n ∈ names, n.length = width → n = formatName width 0)
    (hdat : os.Open (os.Join [root, topic, formatName width 0]) = .ok dat)
    (hstat : dat.statErr = none) (hread : dat.readErr = none)
    (hsize : dat.content.length = N * 32) (hfit : N * 32 < 2 ^ 63)
    (hlog : os.Open (os.Join [root, topic, formatName width 0] ++ ascii ".log") = .ok logf)
    (hmax : os.maxAlloc < 2 ^ 63) (hid0 : 0 ≤ id) (hidN : id < N) :
    (limit < 0 → ((N : Int) - id) * 32 ≤ (os.maxAlloc : Int) →
      (Consume os width q topic id limit).1.ret = .ret ((N : Int) - id, none)
      ∧ (((dat.ReadAt ((N - id.toNat) * 32) (id * 32)).length / 32 : Nat) : Int) = (N : Int) - id)
    ∧ (1 ≤ limit → limit * 32 ≤ (os.maxAlloc : Int) →
      (Consume os width q topic id limit).1.ret = .ret (min limit ((N : Int) - id), none)
      ∧ (((dat.ReadAt (limit.toNat * 32) (id * 32)).length / 32 : Nat) : Int)
          = min limit ((N : Int) - id))
    ∧ (1 ≤ limit → limit < 2 ^ 58 → (os.maxAlloc : Int) < limit * 32 →
      (Consume os width q topic id limit).1.ret = .panicked) := by
  obtain ⟨i, rfl⟩ := Int.eq_ofNat_of_zero_le hid0
  have hi : i < N := by omega
  have hoff : toInt64 ((i : Int) * datEntryLength) = ((i * 32 : Nat) : Int) := by
    rw [datEntryLength_eq, toInt64_of_range _ (by omega) (by omega)]
    omega
  have hpos : ((i : Int) * 32) = ((i * 32 : Nat) : Int) := by omega
  refine ⟨?_, ?_, ?_⟩
  · intro hneg hroom
    have halloc := rest_alloc_nat N i os.maxAlloc hi hroom
    have hlim : (if limit < 0 then
        (toInt64 ((dat.content.length : Int) - toInt64 ((i : Int) * datEntryLength))).tdiv
          datEntryLength
      else limit) = ((N - i : Nat) : Int) := by
      rw [if_pos hneg, hoff, hsize, toInt64_of_range _ (by omega) (by omega), datEntryLength_eq,
        Int.tdiv_eq_ediv (by omega) (by decide)]
      omega
    obtain ⟨h1, h2⟩ := Consume_count_aux os width q topic root names dat logf N i (N - i) limit
      hroot hcache hdir hnames hdat hstat hread hsize hfit hlog hi (by omega) (by omega) halloc
      hlim
    have hm := cast_min_self N i hi
    constructor
    · rw [h1, hm]
    · rw [Int.toNat_ofNat, hpos, h2, hm]
  · intro hl1 hl2
    obtain ⟨l, rfl⟩ := Int.eq_ofNat_of_zero_le (by omega : 0 ≤ limit)
    obtain ⟨halloc, hl58⟩ := limit_alloc_nat l os.maxAlloc hl2 hmax
    have hlim : (if (l : Int) < 0 then
        (toInt64 ((dat.content.length : Int) - toInt64 ((i : Int) * datEntryLength))).tdiv
          datEntryLength
      else (l : Int)) = (l : Int) := by
      rw [if_neg (by omega)]
    obtain ⟨h1, h2⟩ := Consume_count_aux os width q topic root names dat logf N i l (l : Int)
      hroot hcache hdir hnames hdat hstat hread hsize hfit hlog hi (by omega) hl58 halloc hlim
    have hm := cast_min l N i hi
    constructor
    · rw [h1, hm]
    · rw [Int.toNat_ofNat, hpos, h2, hm]
  · intro hl1 hl2 hbig
    obtain ⟨l, rfl⟩ := Int.eq_ofNat_of_zero_le (by omega : 0 ≤ limit)
    obtain ⟨cache, hget⟩ := getConsumeDat_single os width q.consumeCache (os.Join [root, topic])
      (i : Int) names hcache hdir hnames
    rw [Consume_of_dat os width q topic root _ _ (l : Int) cache dat hroot hget hdat]
    have hl1n : 1 ≤ l := by omega
    have hl2n : l < 2 ^ 58 := by omega
    have hbign : os.maxAlloc < l * 32 := by omega
    rw [readIndex_no_alloc os dat _ N i l hstat hsize hfit hi hl1n hl2n hbign]

/-- C5 as amended, at concrete inputs: topic `t` (N = 3), id = 1, with limits -1,
1 and 7. -/
theorem Consume_count_witness :
    (Consume diskOS 4 diskQueue (ascii "t") 1 (-1)).1.ret = .ret (2, none)
    ∧ (Consume diskOS 4 diskQueue (ascii "t") 1 1).1.ret = .ret (1, none)
    ∧ (Consume diskOS 4 diskQueue (ascii "t") 1 7).1.ret = .ret (2, none) := by
  have h := fun limit => Consume_count diskOS 4 diskQueue (ascii "t") (ascii "r")
    [ascii "0000.log", ascii "0000"] ⟨indexT, none, none⟩ ⟨ascii "abbccc", none, none⟩ 3 1 limit
    (by decide) (by intro c l hc; cases hc) (by decide) (by decide) (by decide)
    rfl rfl (by decide) (by decide) (by decide) (by decide) (by decide) (by decide)
  exact ⟨((h (-1)).1 (by decide) (by decide)).1, ((h 1).2.1 (by decide) (by decide)).1,
    ((h 7).2.1 (by decide) (by decide)).1⟩

theorem readIndex_stat_error (os : OS) (dat : File) (path : GoString) (id limit : Int)
    (err : GoError) (hstat : dat.statErr = some err) :
    readIndex os dat path id limit = ⟨.ret (0, some err), none⟩ := by
  unfold readIndex
  rw [hstat]

theorem Consume_of_dir_error (os : OS) (width : Nat) (q : FileQueue) (topic root : GoString)
    (id limit : Int) (cache : Option Cache) (err : GoError)
    (hroot : q.rootDirNames.getLast? = some root)
    (hget : getConsumeDat os width q.consumeCache (os.Join [root, topic]) id = (.error err, cache)) :
    (Consume os width q topic id limit).1.ret
      = .ret (0, some (if IsNotExist err then .ErrTopicDoesNotExist else err)) := by
  unfold Consume
  simp only [hroot, hget]
  cases IsNotExist err <;> rfl

theorem Consume_of_open_error (os : OS) (width : Nat) (q : FileQueue)
    (topic root datName : GoString) (id limit : Int) (cache : Option Cache) (err : GoError)
    (hroot : q.rootDirNames.getLast? = some root)
    (hget : getConsumeDat os width q.consumeCache (os.Join [root, topic]) id = (.ok datName, cache))
    (hdat : os.Open (os.Join [root, topic, datName]) = .error err) :
    (Consume os width q topic id limit).1.ret
      = .ret (0, some (if IsNotExist err then .ErrTopicDoesNotExist else err)) := by
  unfold Consume
  simp only [hroot, hget, hdat]
  cases IsNotExist err <;> rfl

theorem getConsumeDat_dir_error (os : OS) (width : Nat) (consumeCache : Option Cache)
    (path : GoString) (id : Int) (err : GoError)
    (hmiss : cacheHit consumeCache path (formatName width id) = none)
    (hdir : os.Readdirnames path = .error err) :
    getConsumeDat os width consumeCache path id = (.error err, consumeCache) := by
  unfold getConsumeDat
  simp only [hmiss, hdir]

/-- What `Consume` returns once the index file is open and readable, holds `N`
whole entries with `id < N`, and the log file fails to open. -/
theorem Consume_of_log_error (os : OS) (width : Nat) (q : FileQueue)
    (topic root datName : GoString) (limit : Int) (cache : Option Cache) (dat : File)
    (err : GoError) (N i : Nat)
    (hroot : q.rootDirNames.getLast? = some root)
    (hget : getConsumeDat os width q.consumeCache (os.Join [root, topic]) (i : Int)
      = (.ok datName, cache))
    (hdat : os.Open (os.Join [root, topic, datName]) = .ok dat)
    (hstat : dat.statErr = none) (hread : dat.readErr = none)
    (hsize : dat.content.length = N * 32) (hfit : N * 32 < 2 ^ 63) (hi : i < N)
    (hmax : os.maxAlloc < 2 ^ 63)
    (hlimit : (limit < 0 ∧ ((N : Int) - (i : Int)) * 32 ≤ (os.maxAlloc : Int))
      ∨ (1 ≤ limit ∧ limit * 32 ≤ (os.maxAlloc : Int)))
    (hlog : os.Open (os.Join [root, topic, datName] ++ ascii ".log") = .error err) :
    (Consume os width q topic (i : Int) limit).1.ret
      = .ret (0, some (if IsNotExist err then .ErrTopicDoesNotExist else err)) := by
  have hoff : toInt64 ((i : Int) * datEntryLength) = ((i * 32 : Nat) : Int) := by
    rw [datEntryLength_eq, toInt64_of_range _ (by omega) (by omega)]
    omega
  obtain ⟨n, hn1, hn, halloc, hlim⟩ : ∃ n : Nat, 1 ≤ n ∧ n < 2 ^ 58 ∧ n * 32 ≤ os.maxAlloc ∧
      (if limit < 0 then
        (toInt64 ((dat.content.length : Int) - toInt64 ((i : Int) * datEntryLength))).tdiv
          datEntryLength
      else limit) = (n : Int) := by
    rcases hlimit with ⟨hneg, hroom⟩ | ⟨h1, h2⟩
    · refine ⟨N - i, by omega, by omega, rest_alloc_nat N i os.maxAlloc hi hroom, ?_⟩
      rw [if_pos hneg, hoff, hsize, toInt64_of_range _ (by omega) (by omega), datEntryLength_eq,
        Int.tdiv_eq_ediv (by omega) (by decide)]
      omega
    · obtain ⟨l, rfl⟩ := Int.eq_ofNat_of_zero_le (by omega : 0 ≤ limit)
      obtain ⟨ha, hl58⟩ := limit_alloc_nat l os.maxAlloc h2 hmax
      exact ⟨l, by omega, hl58, ha, by rw [if_neg (by omega)]⟩
  rw [Consume_of_dat os width q topic root datName _ limit cache dat hroot hget hdat]
  rw [readIndex_eq os dat _ N i n limit hstat hread hsize hfit hi hn1 hn halloc hlim]
  have hdl := ReadAt_data_length dat (n * 32) (i * 32) (by omega) hread
  have heq := consumeResponse_eq os (dat.ReadAt (n * 32) ((i * 32 : Nat) : Int)).data
    (min n (N - i)) (os.Join [root, topic, datName] ++ ascii ".log")
    (by rw [hdl]; omega) (by rw [hdl]; omega)
  rw [hlog] at heq
  simp only at heq
  rw [heq]
  cases IsNotExist err <;> rfl

/-- C8, evaluated on the code: topic `v` has the index file `0000` (one entry)
and no log file.  For id = 5 the index is shorter than `id*32`, and `Consume`
returns count 0 with a nil error without opening the log; for id = 0 it
returns `ErrTopicDoesNotExist`. -/
theorem Consume_missing_log_unseen :
    diskOS.Open (ascii "r/v/0000.log") = .error errNoSuchFile
    ∧ IsNotExist errNoSuchFile = true
    ∧ (getConsumeDat diskOS 4 none (ascii "r/v") 5).1 = .ok (ascii "0000")
    ∧ (Consume diskOS 4 diskQueue (ascii "v") 5 (-1)).1.ret = .ret (0, none)
    ∧ (Consume diskOS 4 diskQueue (ascii "v") 5 1).1.ret = .ret (0, none)
    ∧ (Consume diskOS 4 diskQueue (ascii "v") 0 (-1)).1.ret
        = .ret (0, some .ErrTopicDoesNotExist) := by
  refine ⟨?_, ?_, ?_, ?_, ?_, ?_⟩ <;> decide

/-- C8 as amended: for every id and limit, a missing topic directory or a
missing index file of the selected segment makes `Consume` return count 0 with
`ErrTopicDoesNotExist`, and any other failure to read the directory or to open
the index, and any failure of `Stat`, is returned unchanged with count 0.  A
failure to open the log file is reported the same way (`ErrTopicDoesNotExist`
when it does not exist, else unchanged) once the index has been read: when the
index is readable and holds `N` whole entries, `0 <= id < N`, and the buffer
can be allocated, `(N - id)*32` bytes for `limit < 0` and `limit*32` bytes for
`limit >= 1`. -/
theorem Consume_errors (os : OS) (width : Nat) (q : FileQueue) (topic root : GoString)
    (id limit : Int) (hroot : q.rootDirNames.getLast? = some root) :
    (∀ err, os.Readdirnames (os.Join [root, topic]) = .error err → IsNotExist err = true →
        (∀ name, ∃ err', os.Open (os.Join [root, topic, name]) = .error err'
          ∧ IsNotExist err' = true) →
        (Consume os width q topic id limit).1.ret = .ret (0, some .ErrTopicDoesNotExist))
    ∧ (∀ err, cacheHit q.consumeCache (os.Join [root, topic]) (formatName width id) = none →
        os.Readdirnames (os.Join [root, topic]) = .error err →
        (Consume os width q topic id limit).1.ret
          = .ret (0, some (if IsNotExist err then .ErrTopicDoesNotExist else err)))
    ∧ (∀ datName cache err,
        getConsumeDat os width q.consumeCache (os.Join [root, topic]) id = (.ok datName, cache) →
        os.Open (os.Join [root, topic, datName]) = .error err →
        (Consume os width q topic id limit).1.ret
          = .ret (0, some (if IsNotExist err then .ErrTopicDoesNotExist else err)))
    ∧ (∀ datName cache dat err,
        getConsumeDat os width q.consumeCache (os.Join [root, topic]) id = (.ok datName, cache) →
        os.Open (os.Join [root, topic, datName]) = .ok dat → dat.statErr = some err →
        (Consume os width q topic id limit).1.ret = .ret (0, some err))
    ∧ (∀ datName cache dat err (N : Nat),
        getConsumeDat os width q.consumeCache (os.Join [root, topic]) id = (.ok datName, cache) →
        os.Open (os.Join [root, topic, datName]) = .ok dat →
        dat.statErr = none → dat.readErr = none →
        dat.content.length = N * 32 → N * 32 < 2 ^ 63 → 0 ≤ id → id < N →
        os.maxAlloc < 2 ^ 63 →
        ((limit < 0 ∧ ((N : Int) - id) * 32 ≤ (os.maxAlloc : Int))
          ∨ (1 ≤ limit ∧ limit * 32 ≤ (os.maxAlloc : Int))) →
        os.Open (os.Join [root, topic, datName] ++ ascii ".log") = .error err →
        (Consume os width q topic id limit).1.ret
          = .ret (0, some (if IsNotExist err then .ErrTopicDoesNotExist else err))) := by
  refine ⟨?_, ?_, ?_, ?_, ?_⟩
  · intro err hdir hne hfiles
    cases hhit : cacheHit q.consumeCache (os.Join [root, topic]) (formatName width id) with
    | none =>
      rw [Consume_of_dir_error os width q topic root id limit _ err hroot
        (getConsumeDat_dir_error os width _ _ id err hhit hdir), hne]
      rfl
    | some name =>
      obtain ⟨err', hopen, hne'⟩ := hfiles name
      rw [Consume_of_open_error os width q topic root name id limit _ err' hroot
        (getConsumeDat_hit os width _ _ id name hhit) hopen, hne']
      rfl
  · intro err hhit hdir
    exact Consume_of_dir_error os width q topic root id limit _ err hroot
      (getConsumeDat_dir_error os width _ _ id err hhit hdir)
  · intro datName cache err hget hopen
    exact Consume_of_open_error os width q topic root datName id limit cache err hroot hget hopen
  · intro datName cache dat err hget hopen hstat
    rw [Consume_of_dat os width q topic root datName id limit cache dat hroot hget hopen,
      readIndex_stat_error os dat _ id limit err hstat]
  · intro datName cache dat err N hget hopen hstat hread hsize hfit hid0 hidN hmax hlimit hlog
    obtain ⟨i, rfl⟩ := Int.eq_ofNat_of_zero_le hid0
    exact Consume_of_log_error os width q topic root datName limit cache dat err N i hroot hget
      hopen hstat hread hsize hfit (by omega) hmax hlimit hlog

/-- C8 as amended, at concrete inputs: the topic `w` has no directory; the topic
`v` has an index and no log file, and id = 0 is within the index. -/
theorem Consume_errors_witness :
    (Consume diskOS 4 diskQueue (ascii "w") 0 (-1)).1.ret = .ret (0, some .ErrTopicDoesNotExist)
    ∧ (Consume diskOS 4 diskQueue (ascii "v") 0 (-1)).1.ret
        = .ret (0, some .ErrTopicDoesNotExist) := by
  constructor
  · exact (Consume_errors diskOS 4 diskQueue (ascii "w") (ascii "r") 0 (-1) (by decide)).2.1
      errNoSuchFile (by decide) (by decide)
  · exact (Consume_errors diskOS 4 diskQueue (ascii "v") (ascii "r") 0 (-1) (by decide)).2.2.2.2
      (ascii "0000") none ⟨indexEntry 0 9 0 1, none, none⟩ errNoSuchFile 1
      (by decide) (by decide) rfl rfl (by decide) (by decide) (by decide) (by decide)
      (by decide) (Or.inl (by decide)) (by decide)

/-- C9: for a request with a non-empty topic and an integer id the handler
calls the queue's `Consume` once, with that id and with limit -1 when the
`limit` parameter is absent or 0, and with the given limit otherwise; an empty
topic gives 400 `ErrInvalidTopic`, a missing or non-integer id (the topic not
empty) 400 `ErrInvalidMessageID`, a non-integer limit (topic and id in
order) 400 `ErrInvalidMessageLimit`, each without a call to the queue. -/
theorem HandleConsume_request (q : Queue) (r : ConsumeRequest) :
    (r.topic ≠ [] → ∀ id, r.id.bind parseInt = some id →
      ((r.limit = none ∨ r.limit.bind parseInt = some 0) →
        (HandleConsume q r).calls = [⟨r.group, r.topic, id, -1⟩])
      ∧ (∀ limit, r.limit.bind parseInt = some limit → limit ≠ 0 →
        (HandleConsume q r).calls = [⟨r.group, r.topic, id, limit⟩]))
    ∧ (r.topic = [] →
        HandleConsume q r = ⟨⟨some 400, some "InvalidTopic"⟩, []⟩
        ∧ ReadErrors (HandleConsume q r).resp.xError = some (.typed .InvalidTopic))
    ∧ (r.topic ≠ [] → r.id.bind parseInt = none →
        HandleConsume q r = ⟨⟨some 400, some "InvalidMessageID"⟩, []⟩
        ∧ ReadErrors (HandleConsume q r).resp.xError = some (.typed .InvalidMessageID))
    ∧ (r.topic ≠ [] → ∀ id s, r.id.bind parseInt = some id → r.limit = some s →
        parseInt s = none →
        HandleConsume q r = ⟨⟨some 400, some "InvalidMessageLimit"⟩, []⟩
        ∧ ReadErrors (HandleConsume q r).resp.xError = some (.typed .InvalidMessageLimit)) := by
  refine ⟨?_, ?_, ?_, ?_⟩
  · intro ht id hid
    constructor
    · intro hl
      rcases hl with hnone | hzero
      · simp only [HandleConsume, if_neg ht, hid, hnone]
        rfl
      · cases hlim : r.limit with
        | none => rw [hlim] at hzero; cases hzero
        | some s =>
          rw [hlim] at hzero
          simp only [Option.bind] at hzero
          simp only [HandleConsume, if_neg ht, hid, hlim, hzero]
          rfl
    · intro limit hlimit hne
      cases hlim : r.limit with
      | none => rw [hlim] at hlimit; cases hlimit
      | some s =>
        rw [hlim] at hlimit
        simp only [Option.bind] at hlimit
        simp only [HandleConsume, if_neg ht, hid, hlim, hlimit, if_neg hne]
  · intro ht
    have h : HandleConsume q r = ⟨⟨some 400, some "InvalidTopic"⟩, []⟩ := by
      simp only [HandleConsume, if_pos ht]
      rfl
    rw [h]
    exact ⟨rfl, by decide⟩
  · intro ht hid
    have h : HandleConsume q r = ⟨⟨some 400, some "InvalidMessageID"⟩, []⟩ := by
      simp only [HandleConsume, if_neg ht, hid]
      rfl
    rw [h]
    exact ⟨rfl, by decide⟩
  · intro ht id s hid hlim hs
    have h : HandleConsume q r = ⟨⟨some 400, some "InvalidMessageLimit"⟩, []⟩ := by
      simp only [HandleConsume, if_neg ht, hid, hlim, hs]
      rfl
    rw [h]
    exact ⟨rfl, by decide⟩

/-- C9 at concrete inputs: the requests `?id=123&limit=0` and
`?id=123&limit=invalid` of the handler's test. -/
theorem HandleConsume_request_witness :
    (HandleConsume (fun _ => (10, none))
        ⟨ascii "consumer_topic", some (ascii "123"), some (ascii "0"), ascii "group"⟩).calls
      = [⟨ascii "group", ascii "consumer_topic", 123, -1⟩]
    ∧ HandleConsume (fun _ => (10, none))
        ⟨ascii "consumer_topic", some (ascii "123"), some (ascii "invalid"), ascii "group"⟩
      = ⟨⟨some 400, some "InvalidMessageLimit"⟩, []⟩ :=
  ⟨((HandleConsume_request (fun _ => (10, none))
      ⟨ascii "consumer_topic", some (ascii "123"), some (ascii "0"), ascii "group"⟩).1
      (by decide) 123 (by decide)).1 (Or.inr (by decide)),
   ((HandleConsume_request (fun _ => (10, none))
      ⟨ascii "consumer_topic", some (ascii "123"), some (ascii "invalid"), ascii "group"⟩).2.2.2
      (by decide) 123 (ascii "invalid") (by decide) rfl (by decide)).1⟩

/-! ### The client -/

/-- C11: when the broker's response to `CreateTopic` is not OK and its error
message is the text of `ErrTopicExists`, `Client.CreateTopic` returns an error
whose cause is `ErrTopicExists`; when it is not OK with another message, it
returns an error whose cause is `errors.New` of that message, so that the
error's text ends in the message; when it is OK it returns nil. -/
theorem CreateTopic_result (lib : Lib) (meta : Option Meta) (topic : List Byte) :
    (GetOK meta = false → GetErrorMsg meta = lib.ErrTopicExistsText →
      ∃ err, CreateTopic lib (.ok meta) topic = some err ∧ err.Cause = .ErrTopicExists)
    ∧ (GetOK meta = false → GetErrorMsg meta ≠ lib.ErrTopicExistsText →
      ∃ err, CreateTopic lib (.ok meta) topic = some err
        ∧ err.Cause = .new (GetErrorMsg meta)
        ∧ err.Cause.Error lib = GetErrorMsg meta
        ∧ err.Error lib
            = "broker error creating topic " ++ lib.Quote topic ++ ": " ++ GetErrorMsg meta)
    ∧ (GetOK meta = true → CreateTopic lib (.ok meta) topic = none) := by
  refine ⟨?_, ?_, ?_⟩
  · intro hok hmsg
    refine ⟨.wrap .ErrTopicExists ("broker error creating topic " ++ lib.Quote topic), ?_, rfl⟩
    simp only [CreateTopic, hok, hmsg, Wrap, Bool.not_false, if_true]
  · intro hok hmsg
    refine ⟨.wrap (.new (GetErrorMsg meta)) ("broker error creating topic " ++ lib.Quote topic),
      ?_, rfl, rfl, rfl⟩
    simp only [CreateTopic, hok, Wrap, Bool.not_false, if_true, if_neg hmsg]
  · intro hok
    simp only [CreateTopic, hok, Bool.not_true]
    rfl

/-- C11 at concrete inputs: the three kinds of response for the topic `t`. -/
theorem CreateTopic_result_witness :
    (∃ err, CreateTopic demoLib (.ok (some ⟨false, "topic already exists"⟩)) (ascii "t")
        = some err ∧ err.Cause = .ErrTopicExists)
    ∧ (∃ err, CreateTopic demoLib (.ok (some ⟨false, "disk full"⟩)) (ascii "t") = some err
        ∧ err.Cause = .new "disk full")
    ∧ CreateTopic demoLib (.ok (some ⟨true, ""⟩)) (ascii "t") = none := by
  have h1 := (CreateTopic_result demoLib (some ⟨false, "topic already exists"⟩) (ascii "t")).1
    rfl rfl
  obtain ⟨err, h2, h3, _⟩ :=
    (CreateTopic_result demoLib (some ⟨false, "disk full"⟩) (ascii "t")).2.1 rfl (by decide)
  exact ⟨h1, ⟨err, h2, h3⟩,
    (CreateTopic_result demoLib (some ⟨true, ""⟩) (ascii "t")).2.2 rfl⟩

/-- C14, evaluated on the code: the writes succeed and `protocol.ReadPrefix`
returns a prefix of the wrong type with a nil error.  `produce` and `Consume`
reset the data connection to nil and return `errors.Wrapf(err, ...)` with the
nil `err` of `ReadPrefix`, which is nil: `produce` returns a nil error, and
`Consume` returns nil messages with a nil error. -/
theorem wrong_prefix_type_returns_nil :
    (produce demoLib ⟨none, none, (.TypeConsume, 0, none)⟩ ⟨some 1, ⟨[], 0⟩⟩
        [ascii "a", ascii "bb"]).ret = .ret none
    ∧ (produce demoLib ⟨none, none, (.TypeConsume, 0, none)⟩ ⟨some 1, ⟨[], 0⟩⟩
        [ascii "a", ascii "bb"]).client.dataConn = none
    ∧ clientConsume demoLib ⟨.ok 1, none, (.TypeProduce, 0, none), none, .ok [1, 2], ascii "abb"⟩
        (some 1) ⟨[], 0⟩ = ⟨.ret (none, none), none⟩
    ∧ Wrap none "invalid response read from data connection" = none := by
  refine ⟨?_, ?_, ?_, ?_⟩ <;> decide

/-- For every prefix of the wrong type that `ReadPrefix` returns with a nil
error, `produce` returns nil and leaves `c.dataConn` nil. -/
theorem produce_wrong_type (lib : Lib) (io : ProduceIO) (c : Client) (conn : Conn)
    (msgs : List (List Byte)) (p : PrefixType) (hLen : Nat)
    (hconn : c.dataConn = some conn) (hreq : io.reqWrite = none) (hbody : io.bodyWrite = none)
    (hpfx : io.readPrefix = (p, hLen, none)) (hp : p ≠ .TypeProduce) :
    (produce lib io c msgs).ret = .ret none ∧ (produce lib io c msgs).client.dataConn = none := by
  simp only [produce, hconn, hreq, hbody, hpfx, hp, Wrap, ne_eq, not_false_eq_true, if_true,
    and_self]

/-- For every prefix of the wrong type that `ReadPrefix` returns with a nil
error, the client's `Consume` returns nil messages with a nil error and leaves
`c.dataConn` nil. -/
theorem clientConsume_wrong_type (lib : Lib) (io : ConsumeIO) (conn : Conn) (bodyBuf : Buf)
    (p : PrefixType) (hLen : Nat) (hreq : io.reqWrite = none)
    (hpfx : io.readPrefix = (p, hLen, none)) (hp : p ≠ .TypeConsume) :
    clientConsume lib io (some conn) bodyBuf = ⟨.ret (none, none), none⟩ := by
  simp only [clientConsume, hreq, hpfx, hp, Wrap, ne_eq, not_false_eq_true, if_true]

/-- C15, evaluated on the code: topic `t` holds 3 entries (96 bytes).  For id = 3
and limit = -1, and for id = 0 and limit = 0, `Consume` passes the size guard
and calls `consumeResponse` with an empty buffer and limit 0, where `data[8:]`
is out of range and the call panics.  For a torn index of 40 bytes, id = 1 and
limit = 1, it calls `consumeResponse` with limit 0. -/
theorem consumeResponse_called_with_empty_buffer :
    readIndex diskOS ⟨indexT, none, none⟩ (ascii "r/t/0000") 3 (-1)
      = consumeResponse diskOS [] 0 (ascii "r/t/0000.log")
    ∧ readIndex diskOS ⟨indexT, none, none⟩ (ascii "r/t/0000") 0 0
      = consumeResponse diskOS [] 0 (ascii "r/t/0000.log")
    ∧ uint64At [] 8 = none
    ∧ consumeResponse diskOS [] 0 (ascii "r/t/0000.log") = ⟨.panicked, none⟩
    ∧ (Consume diskOS 4 diskQueue (ascii "t") 0 0).1.ret = .panicked
    ∧ readIndex diskOS ⟨indexT.take 40, none, none⟩ (ascii "r/t/0000") 1 1
      = consumeResponse diskOS ((indexT.take 40).drop 32 ++ List.replicate 24 0) 0
          (ascii "r/t/0000.log") := by
  refine ⟨?_, ?_, ?_, ?_, ?_, ?_⟩ <;> decide

/-- The loop of `ProduceLoop` when every `produce` succeeds, started with fewer
than `capCh` messages in the buffer. -/
theorem produceLoopFrom_ok (capCh : Nat) (produce : Nat → List (List Byte) → Option ClientError)
    (hprod : ∀ k batch, produce k batch = none) :
    ∀ (received : List Received) (msgs : List (List Byte)) (errs : List Nat) (k : Nat),
      msgs.length < capCh → errs.length ≤ msgs.length →
      (produceLoopFrom capCh produce received msgs errs k).ret = none
      ∧ (∀ batch ∈ (produceLoopFrom capCh produce received msgs errs k).batches,
          1 ≤ batch.length ∧ batch.length ≤ capCh)
      ∧ (produceLoopFrom capCh produce received msgs errs k).batches.flatten
          = msgs ++ received.map (fun r => r.msg.Msg)
      ∧ (produceLoopFrom capCh produce received msgs errs k).results
          = (errs ++ received.filterMap (fun r => r.msg.Err)).map (fun ch => (ch, none)) := by
  intro received
  induction received with
  | nil =>
    intro msgs errs k hlt hle
    by_cases hpos : msgs.length > 0
    · have h : produceLoopFrom capCh produce [] msgs errs k
          = ⟨none, [msgs], errs.map (fun ch => (ch, none))⟩ := by
        simp only [produceLoopFrom, if_pos hpos, hprod]
      rw [h]
      refine ⟨rfl, ?_, ?_, ?_⟩
      · intro batch hb
        have : batch = msgs := List.mem_singleton.mp hb
        subst this
        omega
      · simp only [List.flatten_cons, List.flatten_nil, List.append_nil, List.map_nil]
      · simp only [List.filterMap_nil, List.append_nil]
    · have hnil : msgs = [] := List.length_eq_zero.mp (by omega)
      subst hnil
      have henil : errs = [] := List.length_eq_zero.mp (by simpa using hle)
      subst henil
      have h : produceLoopFrom capCh produce [] [] [] k = ⟨none, [], []⟩ := by
        simp only [produceLoopFrom, List.length_nil, gt_iff_lt, lt_self_iff_false, if_false]
      rw [h]
      refine ⟨rfl, ?_, rfl, rfl⟩
      intro batch hb
      cases hb
  | cons r rest ih =>
    intro msgs errs k hlt hle
    have hlen : (msgs ++ [r.msg.Msg]).length = msgs.length + 1 := by simp
    have herrs : ∀ errs' : List Nat,
        errs' = (match r.msg.Err with
          | some ch => errs ++ [ch]
          | none => errs) →
        errs'.length ≤ msgs.length + 1
        ∧ errs' ++ rest.filterMap (fun r => r.msg.Err)
            = errs ++ (r :: rest).filterMap (fun r => r.msg.Err) := by
      intro errs' he
      cases hE : r.msg.Err with
      | none =>
        rw [hE] at he
        subst he
        refine ⟨by omega, ?_⟩
        simp only [List.filterMap_cons, hE]
      | some ch =>
        rw [hE] at he
        subst he
        refine ⟨by simp; omega, ?_⟩
        simp only [List.filterMap_cons, hE, List.append_assoc, List.singleton_append]
    obtain ⟨he1, he2⟩ := herrs _ rfl
    by_cases hcond : (msgs ++ [r.msg.Msg]).length = capCh
        ∨ (r.lenCh = 0 ∧ (msgs ++ [r.msg.Msg]).length > 0)
    · obtain ⟨i1, i2, i3, i4⟩ := ih [] [] (k + 1) (by simp at hlt ⊢; omega) (by simp)
      have h : produceLoopFrom capCh produce (r :: rest) msgs errs k
          = ⟨(produceLoopFrom capCh produce rest [] [] (k + 1)).ret,
             (msgs ++ [r.msg.Msg]) :: (produceLoopFrom capCh produce rest [] [] (k + 1)).batches,
             (match r.msg.Err with
                | some ch => errs ++ [ch]
                | none => errs).map (fun ch => (ch, none))
               ++ (produceLoopFrom capCh produce rest [] [] (k + 1)).results⟩ := by
        simp only [produceLoopFrom, if_pos hcond, hprod]
      rw [h]
      refine ⟨i1, ?_, ?_, ?_⟩
      · intro batch hb
        rcases List.mem_cons.mp hb with hb | hb
        · subst hb
          rw [hlen]
          omega
        · exact i2 batch hb
      · simp only [List.flatten_cons, i3, List.nil_append, List.map_cons, List.append_assoc,
          List.singleton_append]
      · simp only [i4, List.nil_append]
        rw [← List.map_append, he2]
    · have hlt' : (msgs ++ [r.msg.Msg]).length < capCh := by
        rw [hlen]
        have : ¬ (msgs ++ [r.msg.Msg]).length = capCh := fun h => hcond (Or.inl h)
        rw [hlen] at this
        omega
      obtain ⟨i1, i2, i3, i4⟩ := ih (msgs ++ [r.msg.Msg])
        (match r.msg.Err with
          | some ch => errs ++ [ch]
          | none => errs) k hlt' (by rw [hlen]; exact he1)
      have h : produceLoopFrom capCh produce (r :: rest) msgs errs k
          = produceLoopFrom capCh produce rest (msgs ++ [r.msg.Msg])
              (match r.msg.Err with
                | some ch => errs ++ [ch]
                | none => errs) k := by
        simp only [produceLoopFrom, if_neg hcond]
      rw [h]
      refine ⟨i1, i2, ?_, ?_⟩
      · rw [i3]
        simp only [List.map_cons, List.append_assoc, List.singleton_append]
      · rw [i4, he2]

/-- C12: on a channel of capacity 0 `ProduceLoop` returns an error and hands
nothing to `produce`.  On a channel of capacity `c >= 1`, when the data
connection is there and every `produce` succeeds, it returns nil once the
channel is closed; every batch holds between 1 and `c` messages; the batches,
concatenated in the order sent, are the messages received from the channel in
order; and the results sent on `Err` channels are one nil per received message
with a non-nil `Err`, in the order received. -/
theorem ProduceLoop_batches (capCh : Nat) (connect : Option ClientError)
    (produce : Nat → List (List Byte) → Option ClientError) (received : List Received) :
    (capCh = 0 →
      (∃ err, (ProduceLoop capCh connect produce received).ret = some err)
      ∧ (ProduceLoop capCh connect produce received).batches = []
      ∧ (ProduceLoop capCh connect produce received).results = [])
    ∧ (1 ≤ capCh → connect = none → (∀ k batch, produce k batch = none) →
      (ProduceLoop capCh connect produce received).ret = none
      ∧ (∀ batch ∈ (ProduceLoop capCh connect produce received).batches,
          1 ≤ batch.length ∧ batch.length ≤ capCh)
      ∧ (ProduceLoop capCh connect produce received).batches.flatten
          = received.map (fun r => r.msg.Msg)
      ∧ (ProduceLoop capCh connect produce received).results
          = (received.filterMap (fun r => r.msg.Err)).map (fun ch => (ch, none))) := by
  constructor
  · intro h0
    have h : ProduceLoop capCh connect produce received
        = ⟨some (.new "invalid channel capacity, channels must have a capacity of at least 1"),
            [], []⟩ := by
      simp only [ProduceLoop, if_pos h0]
    rw [h]
    exact ⟨⟨_, rfl⟩, rfl, rfl⟩
  · intro h1 hconn hprod
    have hne : ¬ capCh = 0 := by omega
    have h : ProduceLoop capCh connect produce received
        = produceLoopFrom capCh produce received [] [] 0 := by
      simp only [ProduceLoop, if_neg hne, hconn]
    rw [h]
    have := produceLoopFrom_ok capCh produce hprod received [] [] 0 (by simpa using h1) (by simp)
    simpa using this

/-- C12 at concrete inputs: capacity 2 and four messages, the channel empty
after the third; and capacity 0. -/
theorem ProduceLoop_batches_witness :
    (ProduceLoop 2 none (fun _ _ => none)
        [⟨⟨ascii "a", some 1⟩, 1⟩, ⟨⟨ascii "b", none⟩, 1⟩, ⟨⟨ascii "c", some 2⟩, 0⟩,
         ⟨⟨ascii "d", some 3⟩, 3⟩]).batches.flatten
      = [ascii "a", ascii "b", ascii "c", ascii "d"]
    ∧ (ProduceLoop 0 none (fun _ _ => none) [⟨⟨ascii "a", some 1⟩, 0⟩]).batches = [] :=
  ⟨((ProduceLoop_batches 2 none (fun _ _ => none)
      [⟨⟨ascii "a", some 1⟩, 1⟩, ⟨⟨ascii "b", none⟩, 1⟩, ⟨⟨ascii "c", some 2⟩, 0⟩,
       ⟨⟨ascii "d", some 3⟩, 3⟩]).2 (by decide) rfl (fun _ _ => rfl)).2.2.1,
   ((ProduceLoop_batches 0 none (fun _ _ => none) [⟨⟨ascii "a", some 1⟩, 0⟩]).1 rfl).2.1⟩

theorem flatten_length_cons (m : List Byte) (rest : List (List Byte)) :
    (m :: rest).flatten.length = m.length + rest.flatten.length := by
  simp only [List.flatten_cons, List.length_append]

/-- The copy loop of `produce` on a buffer with room for the messages. -/
theorem copyMsgs_eq : ∀ (msgs : List (List Byte)) (buf : List Byte) (n : Nat),
    n + msgs.flatten.length ≤ buf.length →
    (copyMsgs msgs buf n).2 = n + msgs.flatten.length
    ∧ (copyMsgs msgs buf n).1.take (n + msgs.flatten.length) = buf.take n ++ msgs.flatten := by
  intro msgs
  induction msgs with
  | nil =>
    intro buf n _
    simp only [copyMsgs, List.flatten_nil, List.length_nil, Nat.add_zero, List.append_nil,
      and_self]
  | cons m rest ih =>
    intro buf n h
    rw [flatten_length_cons] at h
    have hk : min (buf.length - n) m.length = m.length := by omega
    have hstep : copyMsgs (m :: rest) buf n
        = copyMsgs rest (buf.take n ++ m.take m.length ++ buf.drop (n + m.length))
            (n + m.length) := by
      simp only [copyMsgs, hk]
    have hlen : (buf.take n ++ m.take m.length ++ buf.drop (n + m.length)).length
        = buf.length := by
      simp only [List.length_append, List.length_take, List.length_drop]
      omega
    obtain ⟨h1, h2⟩ := ih (buf.take n ++ m.take m.length ++ buf.drop (n + m.length))
      (n + m.length) (by rw [hlen]; omega)
    rw [hstep, flatten_length_cons]
    refine ⟨by rw [h1]; omega, ?_⟩
    have hn : n + (m.length + rest.flatten.length) = n + m.length + rest.flatten.length := by
      omega
    rw [hn, h2]
    have htake : (buf.take n ++ m.take m.length ++ buf.drop (n + m.length)).take (n + m.length)
        = buf.take n ++ m := by
      have hl : (buf.take n ++ m.take m.length).length = n + m.length := by
        simp only [List.length_append, List.length_take]
        omega
      rw [List.take_append_of_le_length (by rw [hl]), List.take_of_length_le (by rw [hl]),
        List.take_length]
    rw [htake, List.flatten_cons, List.append_assoc]

/-- The `int64` sum of message lengths is their sum when it is an `int64`. -/
theorem sum_foldl (sizes : List Nat) : ∀ acc : Nat, acc + sizes.sum < 2 ^ 63 →
    (sizes.map (fun (s : Nat) => (s : Int))).foldl (fun out s => toInt64 (out + s)) (acc : Int)
      = ((acc + sizes.sum : Nat) : Int) := by
  induction sizes with
  | nil => intro acc _; rfl
  | cons s rest ih =>
    intro acc h
    rw [List.sum_cons] at h
    rw [List.map_cons, List.foldl_cons, toInt64_of_range _ (by omega) (by omega)]
    have hs : (acc : Int) + (s : Int) = ((acc + s : Nat) : Int) := by omega
    rw [hs, ih (acc + s) (by omega), List.sum_cons, Nat.add_assoc]

theorem sum_lengths (msgs : List (List Byte)) : (msgs.map List.length).sum = msgs.flatten.length := by
  induction msgs with
  | nil => rfl
  | cons m rest ih => rw [List.map_cons, List.sum_cons, ih, flatten_length_cons]

theorem sum_msgSizesOf (msgs : List (List Byte)) (h : msgs.flatten.length < 2 ^ 63) :
    sum (msgSizesOf msgs) = (msgs.flatten.length : Int) := by
  have h1 : msgSizesOf msgs = (msgs.map List.length).map (fun (s : Nat) => (s : Int)) := by
    unfold msgSizesOf
    rw [List.map_map]
    rfl
  unfold sum
  rw [h1]
  have h2 := sum_foldl (msgs.map List.length) 0 (by rw [sum_lengths]; omega)
  rw [sum_lengths, Nat.zero_add] at h2
  exact h2

theorem sliceMsgs_cons_some (arr : List Byte) (size : Int) (rest : List Int) (n : Int)
    (m : List Byte) (ms : List (List Byte))
    (h1 : slice3 arr n (toInt64 (n + size)) = some m)
    (h2 : sliceMsgs arr rest (toInt64 (n + size)) = some ms) :
    sliceMsgs arr (size :: rest) n = some (m :: ms) := by
  simp only [sliceMsgs, h1, h2]

/-- The slicing loop of `Consume` on a body that holds the messages after
`pre`, cut by the lengths of the messages. -/
theorem sliceMsgs_eq : ∀ (msgs : List (List Byte)) (pre extra : List Byte),
    pre.length + msgs.flatten.length < 2 ^ 63 →
    sliceMsgs (pre ++ msgs.flatten ++ extra) (msgSizesOf msgs) (pre.length : Int) = some msgs := by
  intro msgs
  induction msgs with
  | nil => intro pre extra _; rfl
  | cons m rest ih =>
    intro pre extra h
    rw [flatten_length_cons] at h
    have hsz : msgSizesOf (m :: rest) = (m.length : Int) :: msgSizesOf rest := rfl
    have hn : toInt64 ((pre.length : Int) + (m.length : Int)) = (((pre ++ m).length : Nat) : Int) := by
      rw [toInt64_of_range _ (by omega) (by omega), List.length_append]
      omega
    have harr : pre ++ (m :: rest).flatten ++ extra = (pre ++ m) ++ rest.flatten ++ extra := by
      simp only [List.flatten_cons, List.append_assoc]
    have hslice : slice3 ((pre ++ m) ++ rest.flatten ++ extra) (pre.length : Int)
        (((pre ++ m).length : Nat) : Int) = some m := by
      unfold slice3
      have hc : 0 ≤ (pre.length : Int) ∧ (pre.length : Int) ≤ (((pre ++ m).length : Nat) : Int)
          ∧ (((pre ++ m).length : Nat) : Int)
            ≤ (((pre ++ m) ++ rest.flatten ++ extra).length : Nat) := by
        simp only [List.length_append]
        omega
      rw [if_pos hc]
      have h1 : ((((pre ++ m).length : Nat) : Int) - (pre.length : Int)).toNat = m.length := by
        simp only [List.length_append]
        omega
      rw [h1, Int.toNat_ofNat, List.append_assoc, List.append_assoc, List.drop_left,
        List.take_left]
    have hrec := ih (pre ++ m) extra (by rw [List.length_append]; omega)
    rw [hsz, harr]
    apply sliceMsgs_cons_some
    · rw [hn]
      exact hslice
    · rw [hn]
      exact hrec

/-- What `produce` hands to the connection when the request header is written. -/
theorem produce_sent (lib : Lib) (io : ProduceIO) (c : Client) (conn : Conn)
    (msgs : List (List Byte)) (hconn : c.dataConn = some conn) (hreq : io.reqWrite = none) :
    (produce lib io c msgs).sentSizes = some (msgSizesOf msgs)
    ∧ (produce lib io c msgs).sentBody
        = some ((copyMsgs msgs (lib.ExtendBuffer c.dataBuf (sum (msgSizesOf msgs))).bytes 0).1.take
            (copyMsgs msgs (lib.ExtendBuffer c.dataBuf (sum (msgSizesOf msgs))).bytes 0).2) := by
  unfold produce
  simp only [hconn, hreq]
  cases io.bodyWrite with
  | some err => exact ⟨rfl, rfl⟩
  | none =>
    simp only
    rcases io.readPrefix with ⟨p, hLen, err⟩
    cases err with
    | some err => exact ⟨rfl, rfl⟩
    | none =>
      simp only
      split <;> exact ⟨rfl, rfl⟩

/-- What the client's `Consume` returns when the connection answers with a
consume prefix, a header that decodes to `msgSizes`, and a body that the
slicing loop cuts into `msgs`. -/
theorem clientConsume_ok (lib : Lib) (io : ConsumeIO) (conn : Conn) (bodyBuf body : Buf)
    (hLen : Nat) (msgSizes : List Int) (msgs : List (List Byte))
    (hreq : io.reqWrite = none) (hpfx : io.readPrefix = (.TypeConsume, hLen, none))
    (hheader : io.readHeader = none) (hresp : io.respRead = .ok msgSizes)
    (hbody : readFull io.stream (lib.ExtendBuffer bodyBuf (sum msgSizes)) = .ok body)
    (hslice : sliceMsgs body.arr msgSizes 0 = some msgs) :
    clientConsume lib io (some conn) bodyBuf = ⟨.ret (some msgs, none), some conn⟩ := by
  unfold clientConsume
  simp only [hreq, hpfx, hheader, hresp, hbody, hslice, ne_eq, not_true_eq_false, if_false]

/-- C13: for messages `msgs` whose concatenation is a Go slice (shorter than
`2^63` bytes), with `ExtendBuffer` leaving a slice of the length asked for:
`produce` sends the sizes `len(msgs[i])` and, as body, the concatenation of
`msgs` in order; the sizes sum to the length of the body; the slicing loop of
`Consume` cuts that body by those sizes into exactly `msgs`, whatever follows
the body in the backing array; and `Consume`, on a connection that delivers
those sizes and that body, returns exactly `msgs`. -/
theorem produce_consume_roundtrip (lib : Lib) (pio : ProduceIO) (cio : ConsumeIO) (c : Client)
    (conn : Conn) (bodyBuf : Buf) (msgs : List (List Byte)) (extra : List Byte) (hLen : Nat)
    (hlen : msgs.flatten.length < 2 ^ 63)
    (hext : ∀ (b : Buf) (n : Nat),
      (lib.ExtendBuffer b (n : Int)).len = n ∧ n ≤ (lib.ExtendBuffer b (n : Int)).arr.length)
    (hconn : c.dataConn = some conn) (hreq : pio.reqWrite = none) :
    (produce lib pio c msgs).sentSizes = some (msgs.map (fun m => (m.length : Int)))
    ∧ (produce lib pio c msgs).sentBody = some msgs.flatten
    ∧ sum (msgs.map (fun m => (m.length : Int))) = (msgs.flatten.length : Int)
    ∧ sliceMsgs (msgs.flatten ++ extra) (msgs.map (fun m => (m.length : Int))) 0 = some msgs
    ∧ (cio.reqWrite = none → cio.readPrefix = (.TypeConsume, hLen, none) →
        cio.readHeader = none → cio.respRead = .ok (msgs.map (fun m => (m.length : Int))) →
        cio.stream = msgs.flatten →
        clientConsume lib cio (some conn) bodyBuf = ⟨.ret (some msgs, none), some conn⟩) := by
  have hsum := sum_msgSizesOf msgs hlen
  have hslice : ∀ extra' : List Byte,
      sliceMsgs (msgs.flatten ++ extra') (msgSizesOf msgs) 0 = some msgs := by
    intro extra'
    have := sliceMsgs_eq msgs [] extra' (by simpa using hlen)
    simpa using this
  obtain ⟨hs1, hs2⟩ := produce_sent lib pio c conn msgs hconn hreq
  refine ⟨hs1, ?_, hsum, hslice extra, ?_⟩
  · rw [hs2, hsum]
    obtain ⟨he1, he2⟩ := hext c.dataBuf msgs.flatten.length
    have hbytes : (lib.ExtendBuffer c.dataBuf (msgs.flatten.length : Int)).bytes.length
        = msgs.flatten.length := by
      unfold Buf.bytes
      rw [List.length_take, he1]
      omega
    obtain ⟨h1, h2⟩ := copyMsgs_eq msgs
      (lib.ExtendBuffer c.dataBuf (msgs.flatten.length : Int)).bytes 0 (by rw [hbytes]; omega)
    rw [h1, h2, List.take_zero, List.nil_append]
  · intro hcreq hpfx hheader hresp hstream
    obtain ⟨he1, he2⟩ := hext bodyBuf msgs.flatten.length
    have hfull : readFull cio.stream (lib.ExtendBuffer bodyBuf (sum (msgSizesOf msgs)))
        = .ok { arr := msgs.flatten
                  ++ (lib.ExtendBuffer bodyBuf (msgs.flatten.length : Int)).arr.drop
                      msgs.flatten.length
                len := msgs.flatten.length } := by
      unfold readFull
      rw [hsum, he1, hstream, if_pos (le_refl _), List.take_length]
    exact clientConsume_ok lib cio conn bodyBuf _ hLen (msgSizesOf msgs) msgs hcreq hpfx
      hheader hresp hfull (hslice _)

/-- C13 at a concrete input: the messages `a`, `bb`, `ccc`. -/
theorem produce_consume_roundtrip_witness :
    (produce demoLib ⟨none, none, (.TypeProduce, 0, none)⟩ ⟨some 1, ⟨[], 0⟩⟩
        [ascii "a", ascii "bb", ascii "ccc"]).sentBody = some (ascii "abbccc")
    ∧ sliceMsgs (ascii "abbccc") [1, 2, 3] 0 = some [ascii "a", ascii "bb", ascii "ccc"] := by
  have h := produce_consume_roundtrip demoLib ⟨none, none, (.TypeProduce, 0, none)⟩
    ⟨.ok 1, none, (.TypeConsume, 0, none), none, .ok [1, 2, 3], ascii "abbccc"⟩
    ⟨some 1, ⟨[], 0⟩⟩ 1 ⟨[], 0⟩ [ascii "a", ascii "bb", ascii "ccc"] [] 0 (by decide)
    (by
      intro b n
      unfold demoLib extendTo
      simp only [Int.toNat_ofNat, List.length_append, List.length_replicate, true_and]
      omega)
    rfl rfl
  exact ⟨h.2.1, h.2.2.2.1⟩

end Haraqa
